import Mathlib

/-!
# Verification of the music-to-color feature-extraction pipeline

A shallow embedding of the audio feature-extraction core
(`src/utils/audioProcessing.js`) and of the mood classifier
(`src/utils/moodAnalysis.js`), with theorems settling the behavioural
claims about tempo, pitch, loudness, timbre, key and mood extraction.

JavaScript numbers are modelled as exact extended rationals
(`JsNum` = finite rational, `NaN`, or signed infinity); every arithmetic
operation mirrors the IEEE-754 special-value rules except that finite
arithmetic is exact (no rounding), which is the reading the specification
itself uses ("in exact arithmetic").  Transcendental primitives
(`Math.sqrt`, `Math.cos`, ...) are abstracted into a `MathOps` record,
constrained only by laws that the real functions satisfy (`MathOps.Lawful`);
theorems quantify over every lawful interpretation, and concrete
evaluations instantiate a computable interpretation `ratOps` that is exact
on the (perfect-square) values the concrete inputs reach.
-/

set_option maxHeartbeats 2000000

namespace MusicToColor

/-- JavaScript number: an exact rational, `NaN`, or a signed infinity
(`inf true` = `+Infinity`, `inf false` = `-Infinity`).  Negative zero is
identified with zero: no computation in the embedded code distinguishes
them. -/
inductive JsNum where
  | fin : ℚ → JsNum
  | nan : JsNum
  | inf : Bool → JsNum
  deriving DecidableEq, Repr

namespace JsNum

instance : OfNat JsNum n := ⟨fin n⟩
instance : Coe ℚ JsNum := ⟨fin⟩

/-- JS addition (`+` on numbers). -/
def add : JsNum → JsNum → JsNum
  | fin a, fin b => fin (a + b)
  | fin _, inf s => inf s
  | inf s, fin _ => inf s
  | inf s, inf t => if s = t then inf s else nan
  | _, _ => nan

/-- JS subtraction. -/
def sub : JsNum → JsNum → JsNum
  | fin a, fin b => fin (a - b)
  | fin _, inf s => inf (!s)
  | inf s, fin _ => inf s
  | inf s, inf t => if s = t then nan else inf s
  | _, _ => nan

/-- JS multiplication. -/
def mul : JsNum → JsNum → JsNum
  | fin a, fin b => fin (a * b)
  | fin a, inf s => if a = 0 then nan else inf (s = (0 < a))
  | inf s, fin b => if b = 0 then nan else inf (s = (0 < b))
  | inf s, inf t => inf (s = t)
  | _, _ => nan

/-- JS division.  Division by zero yields a signed infinity (or `NaN`
for `0/0`), exactly as in IEEE-754. -/
def div : JsNum → JsNum → JsNum
  | fin a, fin b =>
      if b = 0 then (if a = 0 then nan else inf (0 < a)) else fin (a / b)
  | fin _, inf _ => fin 0
  | inf s, fin b => if b < 0 then inf (!s) else inf s
  | inf _, inf _ => nan
  | _, _ => nan

/-- JS `Math.abs`. -/
def abs : JsNum → JsNum
  | fin a => fin |a|
  | nan => nan
  | inf _ => inf true

/-- JS `<` comparison: any comparison involving `NaN` is false. -/
def lt : JsNum → JsNum → Bool
  | fin a, fin b => a < b
  | fin _, inf s => s
  | inf s, fin _ => !s
  | inf s, inf t => !s && t
  | _, _ => false

/-- JS `>` comparison. -/
def gt (a b : JsNum) : Bool := lt b a

/-- JS `<=` comparison (false whenever `NaN` is involved). -/
def le : JsNum → JsNum → Bool
  | fin a, fin b => a ≤ b
  | fin _, inf s => s
  | inf s, fin _ => !s
  | inf s, inf t => !s || t
  | _, _ => false

/-- JS `>=` comparison. -/
def ge (a b : JsNum) : Bool := le b a

/-- JS `Math.max` of two numbers (`NaN` propagates). -/
def max2 (a b : JsNum) : JsNum :=
  match a, b with
  | nan, _ => nan
  | _, nan => nan
  | x, y => if lt x y then y else x

/-- JS `Math.min` of two numbers (`NaN` propagates). -/
def min2 (a b : JsNum) : JsNum :=
  match a, b with
  | nan, _ => nan
  | _, nan => nan
  | x, y => if lt y x then y else x

/-- Truncation of a rational toward zero (JS `ToIntegerOrInfinity` core). -/
def truncQ (q : ℚ) : ℤ := if 0 ≤ q then ⌊q⌋ else -⌊-q⌋

/-- JS `Math.floor`. -/
def floor : JsNum → JsNum
  | fin a => fin ⌊a⌋
  | nan => nan
  | inf s => inf s

/-- JS `Math.round` (round half toward `+∞`). -/
def round : JsNum → JsNum
  | fin a => fin ⌊a + 1/2⌋
  | nan => nan
  | inf s => inf s

/-- JS remainder `%` (sign of the dividend, truncated quotient). -/
def mod : JsNum → JsNum → JsNum
  | fin a, fin b => if b = 0 then nan else fin (a - b * (truncQ (a / b)))
  | _, _ => nan

/-- JS truthiness of a number: `0` and `NaN` are falsy. -/
def truthy : JsNum → Bool
  | fin a => a ≠ 0
  | nan => false
  | inf _ => true

end JsNum

open JsNum

/-- Left-to-right sum of a list of JS numbers (the accumulation order used
by every `reduce((sum, v) => sum + v, 0)` / `+=` loop in the source). -/
def jsSum (l : List JsNum) : JsNum := l.foldl JsNum.add (fin 0)

/-- `Math.max(...l)`: `-Infinity` on the empty list, `NaN` propagates. -/
def jsMaxList (l : List JsNum) : JsNum := l.foldl JsNum.max2 (inf false)

/-- `Math.min(...l)`: `+Infinity` on the empty list, `NaN` propagates. -/
def jsMinList (l : List JsNum) : JsNum := l.foldl JsNum.min2 (inf true)

/-- The abstract transcendental primitives of `Math` used by the pipeline.
`pi` stands for the `Math.PI` constant.  Results of the real functions are
irrational in general, so an interpretation only has to agree with the
real functions where the laws (`MathOps.Lawful`) force it to. -/
structure MathOps where
  sqrt : JsNum → JsNum
  cos : JsNum → JsNum
  log : JsNum → JsNum
  log2 : JsNum → JsNum
  log10 : JsNum → JsNum
  exp : JsNum → JsNum
  pow : JsNum → JsNum → JsNum
  pi : ℚ

/-- Laws that the real `Math` functions satisfy and that the proofs use:
`sqrt` is exact on perfect squares of rationals, and `cos` of a finite
number is a finite number. -/
structure MathOps.Lawful (M : MathOps) : Prop where
  sqrt_exact : ∀ (q r : ℚ), 0 ≤ r → r * r = q → M.sqrt (fin q) = fin r
  cos_fin : ∀ q : ℚ, ∃ c : ℚ, M.cos (fin q) = fin c


/-- A decoded audio signal: the mono sample buffer plus its sample rate. -/
structure Signal where
  samples : List ℚ
  sampleRate : ℕ
  deriving DecidableEq

/-- A valid `Signal` in the sense of the specification's data model:
a positive integer sample rate and a nonempty sample sequence with values
in `[-1, 1]`. -/
def ValidSignal (s : Signal) : Prop :=
  1 ≤ s.sampleRate ∧ s.samples ≠ [] ∧ ∀ x ∈ s.samples, -1 ≤ x ∧ x ≤ 1

instance : DecidablePred ValidSignal := fun s => by
  unfold ValidSignal; infer_instance

/-! ## Shared statistics helpers (`calculateMean`, `calculateStandardDeviation`)

`calculateMean(array)` is `array.reduce((sum, val) => sum + val, 0) / array.length`
and `calculateStandardDeviation(array, mean)` averages the squared
deviations and takes `Math.sqrt`.  The mean of an empty list is `0/0 = NaN`,
as in JS. -/

/-- `calculateMean` from the source. -/
def calculateMean (l : List JsNum) : JsNum :=
  JsNum.div (jsSum l) (fin l.length)

/-- `calculateStandardDeviation` from the source.  The one call site that
omits the `mean` argument (JS passes `undefined`) is modelled by passing
`JsNum.nan`, which behaves identically in the subtraction. -/
def calculateStandardDeviation (M : MathOps) (l : List JsNum) (mean : JsNum) : JsNum :=
  let squareDiffs := l.map (fun v => JsNum.mul (JsNum.sub v mean) (JsNum.sub v mean))
  M.sqrt (calculateMean squareDiffs)

/-! ## Tempo estimator (`extractTempo`, `detectOnsets`, `calculateTempoFromOnsets`)

`extractTempo` downsamples by 4, sets a base threshold `mean + 1.5·std`,
scans the downsampled data with three window sizes (50% overlap), and for
each window size with at least two onsets takes the per-window histogram
winner, keeping the window size with the strictly highest confidence. -/

/-- Every `n`-th element of a list (used by the downsampling loop
`downsampledData[i] = channelData[i * downsampleFactor]`).  The fuel
argument only drives the structural recursion; `everyNth` passes the
list's length, which always suffices. -/
def everyNthGo (n : ℕ) : ℕ → List ℚ → List ℚ
  | 0, _ => []
  | _, [] => []
  | fuel + 1, a :: rest => a :: everyNthGo n fuel (rest.drop (n - 1))

/-- The downsampled buffer of `extractTempo`: `Math.floor(len/4)` entries,
entry `i` being `channelData[4*i]`. -/
def downsample (samples : List ℚ) : List ℚ :=
  (everyNthGo 4 samples.length samples).take (samples.length / 4)

/-- One pass of the `detectOnsets` loop.  `rem` is the suffix
`signal.slice(i)`; the JS condition `i < signal.length - windowSize` is
`windowSize < rem.length`.  JS diverges when `hopSize = 0` (this needs a
sample rate below 128); the embedding stops instead, and every theorem
about the tempo estimator assumes a sample rate of at least 128. -/
def detectOnsetsGo (windowSize hopSize : ℕ) (baseThreshold : JsNum)
    (originalSampleRate : ℕ) : ℕ → List JsNum → ℕ → List JsNum →
    List JsNum → List JsNum
  | 0, _, _, _, acc => acc
  | fuel + 1, rem, i, energyHistory, acc =>
    if windowSize < rem.length ∧ 0 < hopSize then
      let window := rem.take windowSize
      let windowEnergy := JsNum.div (jsSum (window.map JsNum.abs)) (fin windowSize)
      let hist1 := energyHistory ++ [windowEnergy]
      let hist := if 43 < hist1.length then hist1.drop 1 else hist1
      let localMean := calculateMean hist
      let localThreshold := JsNum.max2 baseThreshold (JsNum.mul localMean (fin (3/2)))
      let last3 := hist.drop (hist.length - 3)
      let acc' :=
        if JsNum.gt windowEnergy localThreshold &&
           JsNum.gt windowEnergy (JsNum.mul (calculateMean last3) (fin (6/5))) then
          acc ++ [JsNum.div (fin i) (fin originalSampleRate)]
        else acc
      detectOnsetsGo windowSize hopSize baseThreshold originalSampleRate
        fuel (rem.drop hopSize) (i + hopSize) hist acc'
    else acc

/-- `detectOnsets` from the source: the list of onset times
`i / originalSampleRate`.  The fuel `signal.length + 1` always suffices,
as each step drops at least one element of the remaining suffix. -/
def detectOnsets (signal : List JsNum) (windowSize hopSize : ℕ)
    (baseThreshold : JsNum) (originalSampleRate : ℕ) : List JsNum :=
  detectOnsetsGo windowSize hopSize baseThreshold originalSampleRate
    (signal.length + 1) signal 0 [] []

/-- Insert into a JS `Map` (association list keyed in first-insertion
order, as JS `Map` iteration is). -/
def mapBump : List (JsNum × ℕ) → JsNum → List (JsNum × ℕ)
  | [], k => [(k, 1)]
  | (k', c) :: rest, k =>
      if k' = k then (k', c + 1) :: rest else (k', c) :: mapBump rest k

/-- The consecutive onset-time differences (`intervals`) of
`calculateTempoFromOnsets`. -/
def onsetIntervals (onsetTimes : List JsNum) : List JsNum :=
  (onsetTimes.zip (onsetTimes.drop 1)).map (fun p => JsNum.sub p.2 p.1)

/-- The 5-BPM histogram of `calculateTempoFromOnsets`: intervals are
converted to BPM (`60/interval`), kept only in `[40, 200]`, and bucketed
at `Math.round(bpm/5)*5`. -/
def tempoBinsOf (intervals : List JsNum) : List (JsNum × ℕ) :=
  intervals.foldl
    (fun bins interval =>
      let bpm := JsNum.div (fin 60) interval
      if JsNum.ge bpm (fin 40) && JsNum.le bpm (fin 200) then
        mapBump bins (JsNum.mul (JsNum.round (JsNum.div bpm (fin 5))) (fin 5))
      else bins)
    []

/-- The `maxCount/bestTempo` scan over a histogram (strict `count > maxCount`,
default tempo 120). -/
def bestBin (bins : List (JsNum × ℕ)) : ℕ × JsNum :=
  bins.foldl
    (fun (best : ℕ × JsNum) (entry : JsNum × ℕ) =>
      if best.1 < entry.2 then (entry.2, entry.1) else best)
    (0, fin 120)

/-- `calculateTempoFromOnsets` from the source: 5-BPM histogram of the
in-range interval BPMs, returning the first most-populous bin and
`maxCount / intervals.length` as confidence. -/
def calculateTempoFromOnsets (onsetTimes : List JsNum) : JsNum × JsNum :=
  let intervals := onsetIntervals onsetTimes
  let best := bestBin (tempoBinsOf intervals)
  let confidence := JsNum.div (fin best.1) (fin intervals.length)
  (best.2, confidence)

/-- The three analysis window sizes of `extractTempo` (downsampled
units). -/
def tempoWindowSizes (sampleRate : ℕ) : List ℕ :=
  [sampleRate / 4 / 4, sampleRate / 8 / 4, sampleRate / 16 / 4]

/-- The base energy threshold of `extractTempo`:
`signalMean + signalStd * 1.5` over the downsampled data. -/
def tempoBaseThreshold (M : MathOps) (ds : List ℚ) : JsNum :=
  let dsJs := ds.map fin
  let signalMean := calculateMean dsJs
  let signalStd := calculateStandardDeviation M dsJs signalMean
  JsNum.add signalMean (JsNum.mul signalStd (fin (3/2)))

/-- The onset list `extractTempo` computes for one window size
(hop = `Math.floor(windowSize/2)`, original sample rate
`sampleRate * downsampleFactor`). -/
def tempoOnsets (M : MathOps) (sig : Signal) (windowSize : ℕ) : List JsNum :=
  let ds := downsample sig.samples
  detectOnsets (ds.map fin) windowSize (windowSize / 2)
    (tempoBaseThreshold M ds) (sig.sampleRate * 4)

/-- `extractTempo` from the source: keep, over the three window sizes, the
per-window histogram tempo with the strictly highest confidence (starting
from the default `(120, 0)`), and round the winner. -/
def extractTempo (M : MathOps) (sig : Signal) : JsNum :=
  let best := (tempoWindowSizes sig.sampleRate).foldl
    (fun (best : JsNum × JsNum) windowSize =>
      let onsetTimes := tempoOnsets M sig windowSize
      if 2 ≤ onsetTimes.length then
        let tc := calculateTempoFromOnsets onsetTimes
        if JsNum.gt tc.2 best.2 then tc else best
      else best)
    (fin 120, fin 0)
  JsNum.round best.1

/-- The per-window tempo selection the code actually implements (the
amended reading of the spec sentence for §4.2): each window size with at
least two onsets contributes its own histogram winner and per-window
confidence, and the candidate with the strictly highest confidence (in
window order, largest window first) is kept, starting from `(120, 0)`. -/
def perWindowTempoSelection (M : MathOps) (sig : Signal) : JsNum × JsNum :=
  ((tempoWindowSizes sig.sampleRate).filterMap (fun windowSize =>
      let onsetTimes := tempoOnsets M sig windowSize
      if 2 ≤ onsetTimes.length then some (calculateTempoFromOnsets onsetTimes)
      else none)).foldl
    (fun best tc => if JsNum.gt tc.2 best.2 then tc else best) (fin 120, fin 0)

/-- The tempo selection that the specification describes (modelled from
the spec sentence for §4.2): pool the onset intervals of all three window
sizes into one 5-BPM histogram and take the most populous bin's center,
with confidence = that bin's count over the total number of intervals. -/
def specPooledTempo (M : MathOps) (sig : Signal) : JsNum × JsNum :=
  let intervals := ((tempoWindowSizes sig.sampleRate).map
    (fun w => onsetIntervals (tempoOnsets M sig w))).flatten
  let best := bestBin (tempoBinsOf intervals)
  (best.2, JsNum.div (fin best.1) (fin intervals.length))

/-! ## Loudness estimator (`extractRms`)

`extractRms` walks the buffer in 2048-sample windows, accumulating the
squared-amplitude sum and the processed sample count, and finally returns
`Math.sqrt(sum / count)`. -/

/-- The inner window loop of `extractRms`: `windowSum += x * x`. -/
def rmsWindowSum (chunk : List JsNum) : JsNum :=
  chunk.foldl (fun s x => JsNum.add s (JsNum.mul x x)) (fin 0)

/-- The outer window loop of `extractRms`, accumulating `(sum, count)` in
2048-sample chunks.  Fuel (`length + 1` at the call site) only drives the
structural recursion. -/
def extractRmsGo : ℕ → JsNum → ℕ → List JsNum → JsNum × ℕ
  | 0, acc, cnt, _ => (acc, cnt)
  | _, acc, cnt, [] => (acc, cnt)
  | fuel + 1, acc, cnt, l =>
      extractRmsGo fuel (JsNum.add acc (rmsWindowSum (l.take 2048)))
        (cnt + min 2048 l.length) (l.drop 2048)

/-- `extractRms` from the source. -/
def extractRms (M : MathOps) (sig : Signal) : JsNum :=
  let channelData := sig.samples.map fin
  let r := extractRmsGo (channelData.length + 1) (fin 0) 0 channelData
  M.sqrt (JsNum.div r.1 (fin r.2))

/-- The loudness value the specification describes (modelled from the
spec sentence for §4.4): full-signal RMS `sqrt((1/N) · Σ samples[i]²)`. -/
def rmsSpec (M : MathOps) (sig : Signal) : JsNum :=
  let channelData := sig.samples.map fin
  M.sqrt (JsNum.mul (JsNum.div (fin 1) (fin channelData.length))
    (jsSum (channelData.map (fun x => JsNum.mul x x))))

/-! ## Pitch estimator (`extractPitch`, `autocorrelationPitch`)

Three segments at two window sizes are Hann-windowed and autocorrelated;
candidates must be in `[20, 2000]` Hz with clarity above 0.3, then above
0.5; the rounded median of the top five candidates by clarity is
returned, or `null` when no candidate survives. -/

/-- `applyHanningWindow` from the source:
`signal[i] * (0.5 * (1 - cos(2π·i / (len - 1))))`. -/
def applyHanningWindow (M : MathOps) (signal : List JsNum) : List JsNum :=
  signal.enum.map (fun p =>
    JsNum.mul p.2
      (JsNum.mul (fin (1/2))
        (JsNum.sub (fin 1)
          (M.cos (JsNum.div (fin (2 * M.pi * p.1))
            (fin ((signal.length : ℚ) - 1)))))))

/-- One lag of the autocorrelation loop: normalized correlation
`Σ s[i]·s[i+lag] / Σ_{i < len-lag} s[i]²`, `0` when the energy is not
positive. -/
def autocorrAt (signal : List JsNum) (lag : ℕ) : JsNum :=
  let correlation :=
    jsSum ((signal.zip (signal.drop lag)).map (fun p => JsNum.mul p.1 p.2))
  let signalEnergy :=
    jsSum ((signal.take (signal.length - lag)).map (fun x => JsNum.mul x x))
  if JsNum.gt signalEnergy (fin 0) then JsNum.div correlation signalEnergy
  else fin 0

/-- `autocorrelationPitch` from the source: track the maximal normalized
correlation over lags above 20, convert the winning lag to
`sampleRate / lag`, and apply the `[20, 2000]` Hz range and clarity > 0.3
acceptance test. -/
def autocorrelationPitch (signal : List JsNum) (sampleRate : ℕ) :
    Option JsNum × JsNum :=
  let best := (List.range signal.length).foldl
    (fun (best : JsNum × ℕ) lag =>
      if 20 < lag then
        let c := autocorrAt signal lag
        if JsNum.gt c best.1 then (c, lag) else best
      else best)
    (fin 0, 0)
  let fundamentalFreq := JsNum.div (fin sampleRate) (fin best.2)
  let clarity := best.1
  if JsNum.ge fundamentalFreq (fin 20) && JsNum.le fundamentalFreq (fin 2000) &&
      JsNum.gt clarity (fin (3/10)) then
    (some fundamentalFreq, clarity)
  else (none, fin 0)

/-- The accepted `(pitch, clarity)` candidate list of `extractPitch`:
per window size (2048, 4096) and segment (3), the `autocorrelationPitch`
results that are truthy and have clarity above 0.5, in scan order. -/
def pitchCandidates (M : MathOps) (sig : Signal) : List (JsNum × JsNum) :=
  let channelData := sig.samples.map fin
  ([2048, 4096] : List ℕ).foldl (fun acc windowSize =>
    (List.range 3).foldl (fun acc i =>
      let startIndex := channelData.length * i / 3
      let segment := (channelData.drop startIndex).take windowSize
      let windowedSegment := applyHanningWindow M segment
      let r := autocorrelationPitch windowedSegment sig.sampleRate
      match r.1 with
      | some p =>
          if JsNum.truthy p && JsNum.gt r.2 (fin (1/2)) then acc ++ [(p, r.2)]
          else acc
      | none => acc) acc) []

/-- Stable insertion of `x` into a sorted list: `x` is placed before the
first element the comparator strictly orders it ahead of. -/
def insSorted (before : α → α → Bool) (x : α) : List α → List α
  | [] => [x]
  | y :: ys => if before x y then x :: y :: ys else y :: insSorted before x ys

/-- Stable sort — the reference semantics of JS `Array.prototype.sort`
with a consistent comparator.  `before x y` holds when the comparator
strictly orders `x` ahead of `y`. -/
def jsSortBy (before : α → α → Bool) (l : List α) : List α :=
  l.foldl (fun acc x => insSorted before x acc) []

/-- `getMedian` from the source: sort ascending with comparator
`(a, b) => a - b` and take the middle element (or the mean of the two
middle ones); out-of-range accesses behave as JS `undefined` (`NaN` in
the arithmetic). -/
def getMedian (values : List JsNum) : JsNum :=
  let sorted := jsSortBy (fun a b => JsNum.lt (JsNum.sub a b) (fin 0)) values
  let middle := sorted.length / 2
  if sorted.length % 2 = 0 then
    JsNum.div (JsNum.add (sorted.getD (middle - 1) nan) (sorted.getD middle nan))
      (fin 2)
  else sorted.getD middle nan

/-- `extractPitch` from the source: `null` when no candidate passes,
otherwise the rounded median pitch of the (at most five) highest-clarity
candidates, sorted by the comparator `(a, b) => b.clarity - a.clarity`. -/
def extractPitch (M : MathOps) (sig : Signal) : Option JsNum :=
  let cands := pitchCandidates M sig
  if 0 < cands.length then
    let sorted := jsSortBy (fun a b => JsNum.lt (JsNum.sub b.2 a.2) (fin 0)) cands
    let topCandidates := sorted.take (min 5 cands.length)
    some (JsNum.round (getMedian (topCandidates.map Prod.fst)))
  else none

/-! ## Key detector (`extractKey`, `detectKey`, `combineKeyResults`)

Up to five 5-second segments are chromagrammed and correlated against the
Krumhansl-Schmuckler major/minor profiles at all 12 rotations; segment
estimates are combined by vote. -/

/-- The errors the embedded functions can raise (every runtime failure in
the modelled code is a `TypeError`). -/
inductive JsErr where
  | typeError
  deriving DecidableEq, Repr

instance {ε α : Type} [DecidableEq ε] [DecidableEq α] :
    DecidableEq (Except ε α) := fun a b =>
  match a, b with
  | .error e, .error f =>
      if h : e = f then isTrue (by rw [h])
      else isFalse (fun hc => h (Except.error.inj hc))
  | .ok x, .ok y =>
      if h : x = y then isTrue (by rw [h])
      else isFalse (fun hc => h (Except.ok.inj hc))
  | .error _, .ok _ => isFalse (fun hc => Except.noConfusion hc)
  | .ok _, .error _ => isFalse (fun hc => Except.noConfusion hc)

/-- `MAJOR_PROFILE` from the source (Krumhansl-Schmuckler). -/
def MAJOR_PROFILE : List ℚ :=
  [635/100, 223/100, 348/100, 233/100, 438/100, 409/100,
    252/100, 519/100, 239/100, 366/100, 229/100, 288/100]

/-- `MINOR_PROFILE` from the source (Krumhansl-Schmuckler). -/
def MINOR_PROFILE : List ℚ :=
  [633/100, 268/100, 352/100, 538/100, 260/100, 353/100,
    254/100, 475/100, 398/100, 269/100, 334/100, 317/100]

/-- The note-name table of `detectKey`. -/
def NOTE_NAMES : List String :=
  ["C", "C#", "D", "D#", "E", "F"] ++
    ["F#", "G", "G#", "A", "A#", "B"]

/-- A segment key estimate as `detectKey` returns it. -/
structure KeyResult where
  root : ℕ
  scale : String
  confidence : JsNum
  correlation : JsNum
  rootNote : String
  deriving DecidableEq, Repr

/-- The start offsets of a strided frame loop
`for (let i = 0; i < len - frameSize; i += hop)` — empty when `hop = 0`
(where the JS loop would not terminate; no caller passes 0). -/
def frameStarts (len frameSize hop : ℕ) : List ℕ :=
  if hop = 0 then []
  else (List.range ((len - frameSize + hop - 1) / hop)).map (· * hop)

/-- The Hann window built inside `calculateChromagram` (denominator
`fftSize`, unlike `applyHanningWindow`'s `length - 1`). -/
def chromaWindow (M : MathOps) (fftSize : ℕ) : List JsNum :=
  (List.range fftSize).map (fun i =>
    JsNum.mul (fin (1/2))
      (JsNum.sub (fin 1) (M.cos (JsNum.div (fin (2 * M.pi * i)) (fin fftSize)))))

/-- Interpret a computed JS number as an array write index: the write
`chromagram[pc] += m` only lands in one of the `len` array slots when
`pc` is an integer in `[0, len)`; a `NaN`, negative or fractional value
creates a stray property that later reads of the array ignore. -/
def toArrayIdx (len : ℕ) : JsNum → Option ℕ
  | fin q => if 0 ≤ q ∧ q < len ∧ q.den = 1 then some q.num.toNat else none
  | _ => none

/-- `calculateChromagram` from the source: magnitude spectra of
overlapping Hann-windowed 4096-sample frames, accumulated per pitch class
over the piano range, normalized to total magnitude 1 when the total is
positive. -/
def calculateChromagram (M : MathOps) (signal : List JsNum) (sampleRate : ℕ) :
    List JsNum :=
  let fftSize := 4096
  let hopSize := fftSize / 4
  let window := chromaWindow M fftSize
  let r := (frameStarts signal.length fftSize hopSize).foldl
    (fun (st : List JsNum × JsNum) i =>
      let chunk := (signal.drop i).take fftSize
      let magnitudes := (List.range (fftSize / 2)).map
        (fun j => JsNum.abs (JsNum.mul (chunk.getD j nan) (window.getD j nan)))
      (List.range (fftSize / 2)).foldl
        (fun (st : List JsNum × JsNum) j =>
          let frequency : ℚ := (j * sampleRate : ℕ) / (fftSize : ℚ)
          if 55/2 < frequency ∧ frequency < 4186 then
            let midiNote := JsNum.add
              (JsNum.mul (fin 12) (M.log2 (fin (frequency / 440)))) (fin 69)
            let pitchClass := JsNum.mod (JsNum.round midiNote) (fin 12)
            let magnitude := magnitudes.getD j nan
            let chroma' := match toArrayIdx 12 pitchClass with
              | some k => st.1.set k (JsNum.add (st.1.getD k nan) magnitude)
              | none => st.1
            (chroma', JsNum.add st.2 magnitude)
          else st) st)
    (List.replicate 12 (fin 0), fin 0)
  if JsNum.gt r.2 (fin 0) then r.1.map (fun x => JsNum.div x r.2) else r.1

/-- `correlateProfiles` from the source: normalized correlation of the
chromagram against a profile rotated by `root`
(`Σ c·p / sqrt(Σp² · Σc²)`).  The JS index `(i - root + 12) % 12` is
written `(i + 12 - root) % 12`; the two agree for every `root ≤ 11` used
by `detectKey`. -/
def correlateProfiles (M : MathOps) (chroma : List JsNum) (profile : List ℚ)
    (root : ℕ) : JsNum :=
  let r := (List.range 12).foldl
    (fun (st : JsNum × JsNum × JsNum) i =>
      let chromaVal := chroma.getD i nan
      let profileVal : JsNum := fin (profile.getD ((i + 12 - root) % 12) 0)
      (JsNum.add st.1 (JsNum.mul chromaVal profileVal),
        JsNum.add st.2.1 (JsNum.mul profileVal profileVal),
        JsNum.add st.2.2 (JsNum.mul chromaVal chromaVal)))
    (fin 0, fin 0, fin 0)
  JsNum.div r.1 (M.sqrt (JsNum.mul r.2.1 r.2.2))

/-- `detectKey` from the source: best `(root, scale)` over 12 roots and
both profiles, confidence `max(0.3, min(1, maxCorrelation))`. -/
def detectKey (M : MathOps) (chromagram : List JsNum) : KeyResult :=
  let st := (List.range 12).foldl
    (fun (st : JsNum × ℕ × String) root =>
      let majorCorr := correlateProfiles M chromagram MAJOR_PROFILE root
      let minorCorr := correlateProfiles M chromagram MINOR_PROFILE root
      let st1 := if JsNum.gt majorCorr st.1 then (majorCorr, root, "major") else st
      if JsNum.gt minorCorr st1.1 then (minorCorr, root, "minor") else st1)
    (fin (-1), 0, "major")
  { root := st.2.1, scale := st.2.2,
    confidence := JsNum.max2 (fin (3/10)) (JsNum.min2 (fin 1) st.1),
    correlation := st.1,
    rootNote := NOTE_NAMES.getD st.2.1 "" }

/-- Update a JS `Map` of counts (keys keep first-insertion order, as JS
`Map` iteration does). -/
def mapBumpKey : List (String × ℕ) → String → List (String × ℕ)
  | [], k => [(k, 1)]
  | (k', c) :: rest, k =>
      if k' = k then (k', c + 1) :: rest else (k', c) :: mapBumpKey rest k

/-- `bestResult?.correlation || 0` from `combineKeyResults`: `0` when no
best result exists yet or its correlation is falsy (`0` or `NaN`). -/
def corrOrZero : Option KeyResult → JsNum
  | none => fin 0
  | some b => if JsNum.truthy b.correlation then b.correlation else fin 0

/-- One iteration of the `keyCount`/`maxCount`/`bestResult` loop of
`combineKeyResults`, on the state `(keyCount map, maxCount, bestResult)`. -/
def combineStep (st : List (String × ℕ) × ℕ × Option KeyResult)
    (result : KeyResult) : List (String × ℕ) × ℕ × Option KeyResult :=
  let key := result.rootNote ++ result.scale
  let count := (st.1.lookup key).getD 0 + 1
  let keyCount := mapBumpKey st.1 key
  if st.2.1 < count ∨
      (count = st.2.1 ∧ JsNum.gt result.correlation (corrOrZero st.2.2) = true) then
    (keyCount, count, some result)
  else (keyCount, st.2.1, st.2.2)

/-- `combineKeyResults` from the source: count votes per
`rootNote ++ scale` key; a result becomes the best when its key's count
strictly exceeds the maximum, or ties it with a strictly greater
correlation; the final confidence is
`min(maxCount/results.length + best.confidence, 1)`.  On an empty result
list the JS code dereferences `bestResult.confidence` on `null`, a
`TypeError`. -/
def combineKeyResults (results : List KeyResult) : Except JsErr KeyResult :=
  let st := results.foldl combineStep ([], 0, none)
  match st.2.2 with
  | none => Except.error JsErr.typeError
  | some best =>
      Except.ok { best with
        confidence := JsNum.min2
          (JsNum.add (JsNum.div (fin st.2.1) (fin results.length))
            best.confidence)
          (fin 1) }

/-- JS `ToIntegerOrInfinity` plus the index clamping of
`Array.prototype.slice`. -/
def sliceBound (len : ℕ) : JsNum → ℕ
  | nan => 0
  | inf true => len
  | inf false => 0
  | fin q =>
      let t := JsNum.truncQ q
      if t < 0 then ((len : ℤ) + t).toNat else min t.toNat len

/-- JS `arr.slice(s, e)` with JS-number bounds. -/
def jsSlice (l : List α) (s e : JsNum) : List α :=
  let s' := sliceBound l.length s
  let e' := sliceBound l.length e
  (l.drop s').take (e' - s')

/-- The number of iterations of `for (let i = 0; i < n; i++)` for a JS
number bound `n`: zero when `n` is `NaN` or nonpositive.  (Every use site
has `n ≤ 5`, so the `+∞` case cannot arise; it is mapped to zero.) -/
def jsLoopIters : JsNum → ℕ
  | fin q => (⌈q⌉).toNat
  | _ => 0

/-- The segment slices taken by `extractKey`.  `numSegments` is
`min(5, Math.floor(len / segmentLength))` in JS arithmetic: `NaN` for an
empty signal (zero iterations), and for a single segment the start index
`Math.floor((len - segmentLength) * (i / (numSegments - 1)))` is
`NaN` (`0/0`), which `slice` coerces to an empty segment. -/
def extractKeySegments (sig : Signal) : List (List JsNum) :=
  let channelData := sig.samples.map fin
  let len := channelData.length
  let segmentLength := min (sig.sampleRate * 5) len
  let numSegments := JsNum.min2 (fin 5)
    (JsNum.floor (JsNum.div (fin len) (fin segmentLength)))
  (List.range (jsLoopIters numSegments)).map (fun (i : ℕ) =>
    let startIndex := JsNum.floor (JsNum.mul (fin ((len - segmentLength : ℕ) : ℚ))
      (JsNum.div (fin (i : ℚ)) (JsNum.sub numSegments (fin 1))))
    jsSlice channelData startIndex (JsNum.add startIndex (fin segmentLength)))

/-- The per-segment key estimates of `extractKey`. -/
def keySegmentResults (M : MathOps) (sig : Signal) : List KeyResult :=
  (extractKeySegments sig).map
    (fun segment => detectKey M (calculateChromagram M segment sig.sampleRate))

/-- `extractKey` from the source: per-segment chromagram and key
detection, combined by `combineKeyResults`. -/
def extractKey (M : MathOps) (sig : Signal) : Except JsErr KeyResult :=
  combineKeyResults (keySegmentResults M sig)

/-- The `rootNote ++ scale` string under which `combineKeyResults` counts
a segment's vote. -/
def keyTag (r : KeyResult) : String := r.rootNote ++ r.scale

/-- The number of segment results voting for a given tag. -/
def voteCount (results : List KeyResult) (tag : String) : ℕ :=
  (results.filter (fun r => keyTag r = tag)).length

/-! ## Timbre analyzer (`extractTimbre` and helpers)

The timbre analyzer manipulates dynamically shaped JS objects
(`aggregateTimbreFeatures` iterates `Object.keys` of the per-segment
feature objects), so this module embeds a small dynamic JS value type.
Property access on `undefined` raises a `TypeError`, which is how
`extractTimbre` actually behaves: `aggregateTimbreFeatures` returns an
object without a `spectralSpread` field, and `calculateTimbreComplexity`
dereferences `features.spectralSpread.std` on it. -/

/-- A JavaScript value as the timbre analyzer passes them around:
numbers, arrays, plain objects (fields in insertion order), and
`undefined`. -/
inductive JVal where
  | num : JsNum → JVal
  | arr : List JVal → JVal
  | obj : List (String × JVal) → JVal
  | undef : JVal

/-- JS `ToNumber` as it occurs in this module's arithmetic: numbers stay,
`undefined` is `NaN`; objects and the (string-coerced) values derived
from them are not numeric, hence `NaN`.  (Arrays are only ever consumed
element-wise here, never coerced whole.) -/
def jvalToNumber : JVal → JsNum
  | JVal.num n => n
  | _ => nan

/-- JS truthiness of a value. -/
def jvalTruthy : JVal → Bool
  | JVal.num n => JsNum.truthy n
  | JVal.undef => false
  | _ => true

/-- `Array.isArray`. -/
def isArray : JVal → Bool
  | JVal.arr _ => true
  | _ => false

/-- JS property access `base[name]`: a `TypeError` on `undefined`,
`undefined` for a missing property, the element for a numeric index into
an array, `undefined` for any other property of a number or an array. -/
def getProp : JVal → String → Except JsErr JVal
  | JVal.undef, _ => Except.error JsErr.typeError
  | JVal.obj fields, name => Except.ok ((fields.lookup name).getD JVal.undef)
  | JVal.arr l, name =>
      Except.ok (match name.toNat? with
        | some i => l.getD i JVal.undef
        | none => JVal.undef)
  | JVal.num _, _ => Except.ok JVal.undef

/-- `Object.keys`: the field names of an object, the index strings of an
array, `[]` for a number, and a `TypeError` on `undefined`. -/
def objectKeys : JVal → Except JsErr (List String)
  | JVal.undef => Except.error JsErr.typeError
  | JVal.obj fields => Except.ok (fields.map Prod.fst)
  | JVal.arr l => Except.ok ((List.range l.length).map toString)
  | JVal.num _ => Except.ok []

/-- The `for (const feature in features)` key list: the own enumerable
keys — field names of an object, index strings of an array. -/
def forInKeys : JVal → List String
  | JVal.obj fields => fields.map Prod.fst
  | JVal.arr l => (List.range l.length).map toString
  | _ => []

/-- `arr.slice(s, e)` on a dynamic value: a `TypeError` unless the base
is an array. -/
def jvalSlice : JVal → JsNum → JsNum → Except JsErr (List JVal)
  | JVal.arr l, s, e => Except.ok (jsSlice l s e)
  | _, _, _ => Except.error JsErr.typeError

/-- `calculateMagnitudeSpectrum` from the source: `|signal[i]|` for the
first `fftSize/2` indices (the reference implementation's stand-in for a
spectrum; reads past the end behave as `undefined`, i.e. `NaN`). -/
def calculateMagnitudeSpectrum (signal : List JsNum) (fftSize : ℕ) : List JsNum :=
  (List.range (fftSize / 2)).map (fun i => JsNum.abs (signal.getD i nan))

/-- `createFrequencyArray` from the source: `i · sampleRate / fftSize`. -/
def createFrequencyArray (fftSize sampleRate : ℕ) : List ℚ :=
  (List.range (fftSize / 2)).map (fun i => ((i * sampleRate : ℕ) : ℚ) / (fftSize : ℚ))

/-- `calculateSpectralCentroid` from the source: energy-weighted mean
frequency, `0` when the magnitude sum is exactly `0` (JS
`denominator !== 0` is true for `NaN`). -/
def calculateSpectralCentroid (magnitudes : List JsNum) (frequencies : List ℚ) :
    JsNum :=
  let st := (magnitudes.zip frequencies).foldl
    (fun (st : JsNum × JsNum) p =>
      (JsNum.add st.1 (JsNum.mul p.1 (fin p.2)), JsNum.add st.2 p.1))
    (fin 0, fin 0)
  if st.2 ≠ fin 0 then JsNum.div st.1 st.2 else fin 0

/-- `calculateSpectralSpread` from the source: energy-weighted deviation
from the centroid, square-rooted. -/
def calculateSpectralSpread (M : MathOps) (magnitudes : List JsNum)
    (frequencies : List ℚ) (centroid : JsNum) : JsNum :=
  let st := (magnitudes.zip frequencies).foldl
    (fun (st : JsNum × JsNum) p =>
      (JsNum.add st.1 (JsNum.mul p.1 (M.pow (JsNum.sub (fin p.2) centroid) (fin 2))),
        JsNum.add st.2 p.1))
    (fin 0, fin 0)
  if st.2 ≠ fin 0 then M.sqrt (JsNum.div st.1 st.2) else fin 0

/-- `calculateSpectralFlatness` from the source: geometric over arithmetic
mean of the magnitudes (`ε = 1e-6` inside the logarithm). -/
def calculateSpectralFlatness (M : MathOps) (magnitudes : List JsNum) : JsNum :=
  let st := magnitudes.foldl
    (fun (st : JsNum × JsNum) m =>
      (JsNum.add st.1 (M.log (JsNum.add m (fin (1/1000000)))), JsNum.add st.2 m))
    (fin 0, fin 0)
  let geometricMean := M.exp (JsNum.div st.1 (fin magnitudes.length))
  let arithmeticMean := JsNum.div st.2 (fin magnitudes.length)
  if arithmeticMean ≠ fin 0 then JsNum.div geometricMean arithmeticMean else fin 0

/-- The early-returning scan of `calculateSpectralRolloff`. -/
def rolloffGo (threshold : JsNum) : JsNum → List (JsNum × ℚ) → Option ℚ
  | _, [] => none
  | energySum, p :: rest =>
      let e := JsNum.add energySum p.1
      if JsNum.ge e threshold then some p.2 else rolloffGo threshold e rest

/-- `calculateSpectralRolloff` from the source (85th percentile): the
first frequency at which the running energy reaches 85% of the total;
falls back to the last frequency (JS `undefined`, hence `NaN`, if the
array is empty). -/
def calculateSpectralRolloff (magnitudes : List JsNum) (frequencies : List ℚ) :
    JsNum :=
  let totalEnergy := jsSum magnitudes
  match rolloffGo (JsNum.mul totalEnergy (fin (17/20))) (fin 0)
      (magnitudes.zip frequencies) with
  | some f => fin f
  | none => (frequencies.getLast?).elim nan fin

/-- `findSpectralPeaks` from the source: interior local maxima above 10%
of the global maximum, as `(index, magnitude)` pairs. -/
def findSpectralPeaks (spectrum : List JsNum) : List (ℕ × JsNum) :=
  let mx := jsMaxList spectrum
  (List.range spectrum.length).filterMap (fun i =>
    if 1 ≤ i ∧ i + 1 < spectrum.length then
      let s := spectrum.getD i nan
      if JsNum.gt s (spectrum.getD (i - 1) nan) &&
          JsNum.gt s (spectrum.getD (i + 1) nan) &&
          JsNum.gt s (JsNum.mul (fin (1/10)) mx) then some (i, s)
      else none
    else none)

/-- The `{index, magnitude}` peak objects as JS values. -/
def peaksToJVal (peaks : List (ℕ × JsNum)) : JVal :=
  JVal.arr (peaks.map (fun p =>
    JVal.obj [("index", JVal.num (fin p.1)), ("magnitude", JVal.num p.2)]))

/-- `calculatePeakSpacing` from the source: mean index difference of
consecutive peaks, `0` below two peaks; `peaks.length` on a non-array
(the `calculateRoughness` call path passes `undefined`) is a
`TypeError`. -/
def calculatePeakSpacing : JVal → Except JsErr JsNum
  | JVal.arr peaks =>
      if peaks.length < 2 then Except.ok (fin 0)
      else do
        let idxs ← peaks.mapM (fun p => getProp p "index")
        let spacings := (idxs.zip (idxs.drop 1)).map
          (fun p => JsNum.sub (jvalToNumber p.2) (jvalToNumber p.1))
        Except.ok (calculateMean spacings)
  | _ => Except.error JsErr.typeError

/-- `calculatePeakProminence` from the source: mean of
`magnitude - min(leftMin, rightMin)` over the peaks, with 10-bin flanking
windows. -/
def calculatePeakProminence : JVal → JVal → Except JsErr JsNum
  | JVal.arr peaks, spectrum =>
      if peaks.length = 0 then Except.ok (fin 0)
      else do
        let proms ← peaks.mapM (fun p => do
          let idx ← getProp p "index"
          let mag ← getProp p "magnitude"
          let i := jvalToNumber idx
          let sl ← jvalSlice spectrum (JsNum.max2 (fin 0) (JsNum.sub i (fin 10))) i
          let sr ← jvalSlice spectrum (JsNum.add i (fin 1)) (JsNum.add i (fin 11))
          let leftMin := jsMinList (sl.map jvalToNumber)
          let rightMin := jsMinList (sr.map jvalToNumber)
          Except.ok (JsNum.sub (jvalToNumber mag) (JsNum.min2 leftMin rightMin)))
        Except.ok (JsNum.div (jsSum proms) (fin peaks.length))
  | _, _ => Except.error JsErr.typeError

/-- `analyzeSpectralPeaks` from the source: peak count, spacing and
prominence of the magnitude spectrum's peaks. -/
def analyzeSpectralPeaks (signal : List JsNum) (fftSize : ℕ) :
    Except JsErr JVal := do
  let spectrum := calculateMagnitudeSpectrum signal fftSize
  let peaks := peaksToJVal (findSpectralPeaks spectrum)
  let spacing ← calculatePeakSpacing peaks
  let prominence ← calculatePeakProminence peaks (JVal.arr (spectrum.map JVal.num))
  Except.ok (JVal.obj [
    ("peakCount", JVal.num (fin (findSpectralPeaks spectrum).length)),
    ("peakSpacing", JVal.num spacing),
    ("peakProminence", JVal.num prominence)])

/-- `isHarmonicFrequency` from the source (tolerance 0.1, reference
fundamental 440 Hz). -/
def isHarmonicFrequency (frequency : ℚ) : Bool :=
  let harmonic : ℤ := ⌊frequency / 440 + 1/2⌋
  decide (|frequency - (harmonic : ℚ) * 440| / 440 < 1/10)

/-- `getHarmonicDeviation` from the source. -/
def getHarmonicDeviation (frequency : ℚ) : ℚ :=
  let harmonic : ℤ := ⌊frequency / 440 + 1/2⌋
  |frequency - (harmonic : ℚ) * 440| / 440

/-- `calculateEnhancedHarmonicRatio` from the source: energy near integer
multiples of 440 Hz over total energy. -/
def calculateEnhancedHarmonicRatio (signal : List JsNum)
    (sampleRate fftSize : ℕ) : JsNum :=
  let spectrum := calculateMagnitudeSpectrum signal fftSize
  let st := spectrum.enum.foldl
    (fun (st : JsNum × JsNum) p =>
      let frequency : ℚ := ((p.1 * sampleRate : ℕ) : ℚ) / (fftSize : ℚ)
      (if isHarmonicFrequency frequency then JsNum.add st.1 p.2 else st.1,
        JsNum.add st.2 p.2))
    (fin 0, fin 0)
  if JsNum.gt st.2 (fin 0) then JsNum.div st.1 st.2 else fin 0

/-- `calculateInharmonicity` from the source: energy-weighted deviation
from the nearest harmonic. -/
def calculateInharmonicity (signal : List JsNum) (sampleRate fftSize : ℕ) :
    JsNum :=
  let spectrum := calculateMagnitudeSpectrum signal fftSize
  let st := spectrum.enum.foldl
    (fun (st : JsNum × JsNum) p =>
      let frequency : ℚ := ((p.1 * sampleRate : ℕ) : ℚ) / (fftSize : ℚ)
      (JsNum.add st.1 (JsNum.mul p.2 (fin (getHarmonicDeviation frequency))),
        JsNum.add st.2 p.2))
    (fin 0, fin 0)
  if JsNum.gt st.2 (fin 0) then JsNum.div st.1 st.2 else fin 0

/-- `createMelFilterbank` from the source: gaussian responses around mel-
spaced centers.  Note the parameter named `fftSize` receives `fftSize/2`
at the call site, exactly as in the JS. -/
def createMelFilterbank (M : MathOps) (fftSize sampleRate numFilters : ℕ) :
    List (List JsNum) :=
  let melMax := JsNum.mul (fin 2595)
    (M.log10 (fin (1 + (sampleRate : ℚ) / 2 / 700)))
  let melDelta := JsNum.div melMax (fin (numFilters + 1))
  (List.range numFilters).map (fun i =>
    let melCenter := JsNum.mul (fin ((i + 1 : ℕ) : ℚ)) melDelta
    let freqCenter := JsNum.mul (fin 700)
      (JsNum.sub (M.pow (fin 10) (JsNum.div melCenter (fin 2595))) (fin 1))
    (List.range fftSize).map (fun j =>
      let freq : ℚ := ((j * sampleRate : ℕ) : ℚ) / ((2 * fftSize : ℕ) : ℚ)
      M.exp (JsNum.div
        (JsNum.sub (fin 0) (M.pow (JsNum.sub (fin freq) freqCenter) (fin 2)))
        (JsNum.mul (fin 2) (M.pow melDelta (fin 2))))))

/-- `calculateEnhancedMFCCs` from the source: log of the mel-filtered
spectral energy, 13 coefficients. -/
def calculateEnhancedMFCCs (M : MathOps) (signal : List JsNum)
    (sampleRate fftSize : ℕ) : List JsNum :=
  let numCoefficients := 13
  let melFilters := createMelFilterbank M (fftSize / 2) sampleRate numCoefficients
  let spectrum := calculateMagnitudeSpectrum signal fftSize
  (List.range numCoefficients).map (fun i =>
    let s := jsSum ((spectrum.zip (melFilters.getD i [])).map
      (fun p => JsNum.mul p.1 p.2))
    M.log (JsNum.add s (fin (1/1000000))))

/-- `calculateSpectralFeatures` from the source. -/
def calculateSpectralFeatures (M : MathOps) (signal : List JsNum)
    (sampleRate fftSize : ℕ) : Except JsErr JVal := do
  let magnitudes := calculateMagnitudeSpectrum signal fftSize
  let frequencies := createFrequencyArray fftSize sampleRate
  let centroid := calculateSpectralCentroid magnitudes frequencies
  let spread := calculateSpectralSpread M magnitudes frequencies centroid
  let flatness := calculateSpectralFlatness M magnitudes
  let rolloff := calculateSpectralRolloff magnitudes frequencies
  let peaks ← analyzeSpectralPeaks signal fftSize
  Except.ok (JVal.obj [
    ("spectralCentroid", JVal.num centroid),
    ("spectralSpread", JVal.num spread),
    ("spectralFlatness", JVal.num flatness),
    ("spectralRolloff", JVal.num rolloff),
    ("spectralPeaks", peaks)])

/-- `calculateHarmonicFeatures` from the source (spreads the peak
features into the top level; no transcendental primitive is involved). -/
def calculateHarmonicFeatures (signal : List JsNum)
    (sampleRate fftSize : ℕ) : Except JsErr JVal := do
  let harmonicRatio := calculateEnhancedHarmonicRatio signal sampleRate fftSize
  let inharmonicity := calculateInharmonicity signal sampleRate fftSize
  let peakFeatures ← analyzeSpectralPeaks signal fftSize
  Except.ok (JVal.obj
    ([("harmonicContent", JVal.num harmonicRatio),
      ("inharmonicity", JVal.num inharmonicity)] ++
      (match peakFeatures with | JVal.obj fs => fs | _ => [])))

/-- `analyzeSegment` from the source:
`{...spectralFeatures, ...harmonicFeatures, mfccs}`. -/
def analyzeSegment (M : MathOps) (segment : List JsNum)
    (sampleRate fftSize : ℕ) : Except JsErr JVal := do
  let spectralFeatures ← calculateSpectralFeatures M segment sampleRate fftSize
  let harmonicFeatures ← calculateHarmonicFeatures segment sampleRate fftSize
  let mfccs := calculateEnhancedMFCCs M segment sampleRate fftSize
  Except.ok (JVal.obj
    ((match spectralFeatures with | JVal.obj fs => fs | _ => []) ++
      (match harmonicFeatures with | JVal.obj fs => fs | _ => []) ++
      [("mfccs", JVal.arr (mfccs.map JVal.num))]))

/-- `averageArrays` from the source: element-wise mean, sized by the
first array. -/
def averageArrays (arrays : List JVal) : JVal :=
  if arrays.length = 0 then JVal.arr []
  else
    let first := match arrays.getD 0 JVal.undef with
      | JVal.arr l => l
      | _ => []
    JVal.arr ((List.range first.length).map (fun i =>
      JVal.num (JsNum.div
        (jsSum (arrays.map (fun a => jvalToNumber (match a with
          | JVal.arr l => l.getD i JVal.undef
          | _ => JVal.undef))))
        (fin arrays.length))))

/-- `calculateTimbreComplexity` from the source: mean of
`spectralSpread.std/mean`, `1 - harmonicContent.mean` and
`spectralCentroid.std/mean`.  A `TypeError` when `features` lacks a
`spectralSpread` object — which is the case for the object
`aggregateTimbreFeatures` returns. -/
def calculateTimbreComplexity (features : JVal) : Except JsErr JsNum := do
  let ss ← getProp features "spectralSpread"
  let ssStd ← getProp ss "std"
  let ssMean ← getProp ss "mean"
  let spectralComplexity := JsNum.div (jvalToNumber ssStd) (jvalToNumber ssMean)
  let hc ← getProp features "harmonicContent"
  let hcMean ← getProp hc "mean"
  let harmonicComplexity := JsNum.sub (fin 1) (jvalToNumber hcMean)
  let sc ← getProp features "spectralCentroid"
  let scStd ← getProp sc "std"
  let scMean ← getProp sc "mean"
  let temporalComplexity := JsNum.div (jvalToNumber scStd) (jvalToNumber scMean)
  Except.ok (JsNum.div
    (JsNum.add (JsNum.add spectralComplexity harmonicComplexity)
      temporalComplexity)
    (fin 3))

/-- `calculateTemporalVariation` from the source: mean of `std/mean` over
the features whose `.std` is truthy (every aggregated `std` is `NaN` —
see `calculateStandardDeviation`'s one-argument call — so the list is
always empty and the result `0/0 = NaN`). -/
def calculateTemporalVariation (features : JVal) : Except JsErr JsNum := do
  let variations ← (forInKeys features).foldlM (fun acc name => do
    let v ← getProp features name
    let vStd ← getProp v "std"
    if jvalTruthy vStd then
      let vMean ← getProp v "mean"
      pure (acc ++ [JsNum.div (jvalToNumber vStd) (jvalToNumber vMean)])
    else pure acc) []
  Except.ok (JsNum.div (jsSum variations) (fin variations.length))

/-- `aggregateTimbreFeatures` from the source: `Object.keys` of the first
segment's features drives a generic aggregation (array features are
averaged element-wise, scalar features get `{mean, std, max, min}`
statistics), and a fixed summary object is returned — with no
`spectralSpread` field.  On an empty segment list,
`Object.keys(segmentFeatures[0])` is `Object.keys(undefined)`: a
`TypeError`. -/
def aggregateTimbreFeatures (M : MathOps) (segmentFeatures : List JVal)
    (sampleRate : ℕ) : Except JsErr JVal := do
  let first := segmentFeatures.getD 0 JVal.undef
  let featureNames ← objectKeys first
  let features ← featureNames.foldlM (fun acc feature => do
    let firstVal ← getProp first feature
    let vals ← segmentFeatures.mapM (fun s => getProp s feature)
    if isArray firstVal then
      pure (acc ++ [(feature, averageArrays vals)])
    else
      let nums := vals.map jvalToNumber
      pure (acc ++ [(feature, JVal.obj [
        ("mean", JVal.num (calculateMean nums)),
        ("std", JVal.num (calculateStandardDeviation M nums nan)),
        ("max", JVal.num (jsMaxList nums)),
        ("min", JVal.num (jsMinList nums))])])) []
  let featuresObj := JVal.obj features
  let complexity ← calculateTimbreComplexity featuresObj
  let sc ← getProp featuresObj "spectralCentroid"
  let scMean ← getProp sc "mean"
  let hc ← getProp featuresObj "harmonicContent"
  let hcMean ← getProp hc "mean"
  let ro ← getProp featuresObj "spectralRolloff"
  let roMean ← getProp ro "mean"
  let fl ← getProp featuresObj "spectralFlatness"
  let flMean ← getProp fl "mean"
  let mf ← getProp featuresObj "mfccs"
  let tv ← calculateTemporalVariation featuresObj
  Except.ok (JVal.obj [
    ("spectralCentroid", scMean),
    ("complexity", JVal.num complexity),
    ("harmonicContent", hcMean),
    ("brightness", JVal.num (JsNum.div (jvalToNumber roMean)
      (fin ((sampleRate : ℚ) / 2)))),
    ("roughness", flMean),
    ("mfccs", mf),
    ("temporalVariation", JVal.num tv)])

/-- `calculateRoughness` from the source (reads `features.spectralPeaks`
and `features.magnitudes`, spacing/prominence weighted 0.6/0.4). -/
def calculateRoughness (features : JVal) : Except JsErr JsNum := do
  let sp ← getProp features "spectralPeaks"
  let peakSpacing ← calculatePeakSpacing sp
  let mags ← getProp features "magnitudes"
  let peakProminence ← calculatePeakProminence sp mags
  let normalizedSpacing := JsNum.sub (fin 1)
    (JsNum.min2 (fin 1) (JsNum.div peakSpacing (fin 100)))
  let normalizedProminence := JsNum.min2 (fin 1)
    (JsNum.div peakProminence (fin (1/2)))
  Except.ok (JsNum.add (JsNum.mul normalizedSpacing (fin (3/5)))
    (JsNum.mul normalizedProminence (fin (2/5))))

/-- `calculateWarmth` from the source (reads `features.spectralRolloff`,
`features.sampleRate` and `features.harmonicRatio`, none of which the
aggregated object has — the arithmetic on `undefined` yields `NaN`). -/
def calculateWarmth (features : JVal) : Except JsErr JsNum := do
  let ro ← getProp features "spectralRolloff"
  let sr ← getProp features "sampleRate"
  let lowFreqEnergy := JsNum.div (jvalToNumber ro)
    (JsNum.div (jvalToNumber sr) (fin 2))
  let hb ← getProp features "harmonicRatio"
  let harmonicBalance := jvalToNumber hb
  Except.ok (JsNum.min2 (fin 1)
    (JsNum.add (JsNum.mul (JsNum.sub (fin 1) lowFreqEnergy) (fin (7/10)))
      (JsNum.mul harmonicBalance (fin (3/10)))))

/-- `applyWindow` from the source (default window type `hanning`). -/
def applyWindow (M : MathOps) (signal : List JsNum)
    (windowType : String := "hanning") : List JsNum :=
  signal.enum.map (fun p =>
    let multiplier :=
      if windowType = "hanning" then
        JsNum.mul (fin (1/2)) (JsNum.sub (fin 1)
          (M.cos (JsNum.div (fin (2 * M.pi * p.1)) (fin ((signal.length : ℚ) - 1)))))
      else if windowType = "hamming" then
        JsNum.sub (fin (54/100)) (JsNum.mul (fin (46/100))
          (M.cos (JsNum.div (fin (2 * M.pi * p.1)) (fin ((signal.length : ℚ) - 1)))))
      else fin 1
    JsNum.mul p.2 multiplier)

/-- `extractTimbre` from the source: analyze the 25%-hop frames,
aggregate, then derive the high-level features.  The `complexity` step
dereferences `spectralSpread.std` on the aggregate (which has no such
field), so this computation raises a `TypeError` whenever the frame list
is nonempty — and `aggregateTimbreFeatures` raises one when it is
empty. -/
def extractTimbre (M : MathOps) (sig : Signal) : Except JsErr JVal := do
  let channelData := sig.samples.map fin
  let fftSize := 2048
  let hopSize := fftSize / 4
  let segmentFeatures ← (frameStarts channelData.length fftSize hopSize).mapM
    (fun i => analyzeSegment M (applyWindow M ((channelData.drop i).take fftSize))
      sig.sampleRate fftSize)
  let timbreFeatures ← aggregateTimbreFeatures M segmentFeatures sig.sampleRate
  let complexity ← calculateTimbreComplexity timbreFeatures
  let variation ← calculateTemporalVariation (JVal.arr segmentFeatures)
  let sc ← getProp timbreFeatures "spectralCentroid"
  let brightness := JsNum.div (jvalToNumber sc) (fin ((sig.sampleRate : ℚ) / 4))
  let roughness ← calculateRoughness timbreFeatures
  let warmth ← calculateWarmth timbreFeatures
  Except.ok (JVal.obj [
    ("complexity", JVal.num complexity),
    ("variation", JVal.num variation),
    ("brightness", JVal.num brightness),
    ("roughness", JVal.num roughness),
    ("warmth", JVal.num warmth),
    ("features", timbreFeatures)])

/-! ## Mood classifier (`classifyMoodML`, `src/utils/moodAnalysis.js`)

The classifier consumes plain numeric features, so this module is typed;
the only failure mode is `getCulturalColorMapping` falling back to
`GENRE_COLOR_MAPPINGS.other`, an entry the table does not define, and
then dereferencing `.primary` on `undefined`. -/

/-- An HSL color literal from `moodAnalysis.js`. -/
structure HSL where
  h : ℚ
  s : ℚ
  l : ℚ
  deriving DecidableEq, Repr

/-- One entry of `GENRE_COLOR_MAPPINGS`. -/
structure GenreColors where
  primary : HSL
  secondary : HSL
  cultural : String
  deriving DecidableEq, Repr

/-- `GENRE_COLOR_MAPPINGS` from the source.  Note there is no `"other"`
entry, although `getCulturalColorMapping` falls back to one. -/
def GENRE_COLOR_MAPPINGS : List (String × GenreColors) :=
  [("classical", ⟨⟨280, 60, 50⟩, ⟨45, 40, 80⟩,
      "Associated with European classical tradition"⟩),
    ("jazz", ⟨⟨220, 70, 40⟩, ⟨30, 80, 50⟩,
      "Influenced by African-American musical tradition"⟩),
    ("rock", ⟨⟨0, 80, 40⟩, ⟨0, 0, 20⟩,
      "Associated with youth counterculture and rebellion"⟩),
    ("electronic", ⟨⟨180, 100, 50⟩, ⟨300, 100, 50⟩,
      "Represents technological advancement and futurism"⟩),
    ("folk", ⟨⟨30, 60, 45⟩, ⟨120, 40, 40⟩,
      "Connected to traditional and rural culture"⟩)]

/-- The `western` table of `CULTURAL_MOOD_MAPPINGS`. -/
def CULTURAL_WESTERN : List (String × HSL) :=
  [("happy", ⟨60, 100, 50⟩), ("sad", ⟨230, 60, 40⟩),
    ("peaceful", ⟨180, 40, 80⟩), ("angry", ⟨0, 100, 40⟩)]

/-- The `eastern` table of `CULTURAL_MOOD_MAPPINGS`. -/
def CULTURAL_EASTERN : List (String × HSL) :=
  [("happy", ⟨0, 100, 50⟩), ("sad", ⟨0, 0, 80⟩),
    ("peaceful", ⟨150, 40, 40⟩), ("angry", ⟨0, 0, 0⟩)]

/-- The timbre inputs `classifyMoodML` reads. -/
structure TimbreIn where
  complexity : ℚ
  brightness : ℚ
  roughness : ℚ
  warmth : ℚ
  deriving DecidableEq, Repr

/-- The key inputs `classifyMoodML` reads. -/
structure KeyIn where
  scale : String
  confidence : ℚ
  deriving DecidableEq, Repr

/-- The normalized feature record of `classifyMoodML`. -/
structure MoodFeatures where
  tempo : ℚ
  loudness : ℚ
  complexity : ℚ
  brightness : ℚ
  roughness : ℚ
  warmth : ℚ
  isMinor : ℚ
  keyConfidence : ℚ
  deriving DecidableEq, Repr

/-- `calculateArousal` from the source. -/
def calculateArousal (f : MoodFeatures) : ℚ :=
  f.tempo * (3/10) + f.loudness * (3/10) + f.brightness * (2/10) +
    f.roughness * (2/10)

/-- `calculateValence` from the source. -/
def calculateValence (f : MoodFeatures) : ℚ :=
  (1 - f.isMinor * (3/10)) *
    (f.warmth * (3/10) + (1 - f.roughness) * (2/10) +
      f.keyConfidence * (2/10) + (1 - f.complexity) * (3/10))

/-- `calculateDominance` from the source. -/
def calculateDominance (f : MoodFeatures) : ℚ :=
  f.loudness * (4/10) + f.complexity * (3/10) + f.roughness * (3/10)

/-- `mapToEmotionalState` from the source. -/
def mapToEmotionalState (arousal valence dominance : ℚ) : String :=
  if 7/10 < arousal ∧ 7/10 < valence then "ecstatic"
  else if 7/10 < arousal ∧ valence < 3/10 then "angry"
  else if arousal < 3/10 ∧ 7/10 < valence then "content"
  else if arousal < 3/10 ∧ valence < 3/10 then "depressed"
  else if 7/10 < dominance then (if 1/2 < valence then "triumphant" else "dominant")
  else if dominance < 3/10 then (if 1/2 < valence then "peaceful" else "submissive")
  else "neutral"

/-- `detectGenre` from the source (rules over the raw tempo, timbre and
key confidence). -/
def detectGenre (tempo : ℚ) (timbre : TimbreIn) (key : KeyIn) : String :=
  if tempo < 85 ∧ 7/10 < timbre.complexity ∧ 8/10 < key.confidence then "classical"
  else if 120 < tempo ∧ 7/10 < timbre.brightness then "electronic"
  else if 100 < tempo ∧ 6/10 < timbre.roughness then "rock"
  else if 7/10 < timbre.warmth ∧ timbre.complexity < 4/10 then "folk"
  else if 6/10 < timbre.complexity ∧ 6/10 < key.confidence then "jazz"
  else "other"

/-- `mapEmotionToBasicMood` from the source. -/
def mapEmotionToBasicMood (emotion : String) : String :=
  (([("ecstatic", "happy"), ("angry", "angry"), ("content", "peaceful"),
      ("depressed", "sad"), ("triumphant", "happy"), ("dominant", "angry"),
      ("peaceful", "peaceful"), ("submissive", "sad"), ("neutral", "peaceful")]
    : List (String × String)).lookup emotion).getD "neutral"

/-- `blendColors` from the source. -/
def blendColors (color1 color2 : HSL) : HSL :=
  ⟨(color1.h + color2.h) / 2, (color1.s + color2.s) / 2,
    (color1.l + color2.l) / 2⟩

/-- The cultural color payload of a mood classification. -/
structure CulturalColors where
  genre : GenreColors
  western : HSL
  eastern : HSL
  combined : HSL
  deriving DecidableEq, Repr

/-- `getCulturalColorMapping` from the source:
`GENRE_COLOR_MAPPINGS[genre] || GENRE_COLOR_MAPPINGS.other` — the
fallback entry does not exist, so an unrecognized genre leaves
`genreColors` as `undefined` and `genreColors.primary` raises a
`TypeError`.  (The mood lookups cover every emotional state, so the
`TypeError` their absence would cause cannot occur.) -/
def getCulturalColorMapping (emotion genre : String) :
    Except JsErr CulturalColors :=
  match (GENRE_COLOR_MAPPINGS.lookup genre).orElse
      (fun _ => GENRE_COLOR_MAPPINGS.lookup "other") with
  | none => Except.error JsErr.typeError
  | some genreColors =>
      match CULTURAL_WESTERN.lookup (mapEmotionToBasicMood emotion),
          CULTURAL_EASTERN.lookup (mapEmotionToBasicMood emotion) with
      | some westernMood, some easternMood =>
          Except.ok ⟨genreColors, westernMood, easternMood,
            blendColors genreColors.primary westernMood⟩
      | _, _ => Except.error JsErr.typeError

/-- The result record of `classifyMoodML`. -/
structure MoodMLResult where
  emotional : String
  genre : String
  arousal : ℚ
  valence : ℚ
  dominance : ℚ
  culturalColors : CulturalColors
  deriving DecidableEq, Repr

/-- `classifyMoodML` from the source: normalize the features, compute the
three emotional dimensions, the discrete emotional state, the genre and
the cultural colors. -/
def classifyMoodML (tempo rms : ℚ) (timbre : TimbreIn) (key : KeyIn) :
    Except JsErr MoodMLResult := do
  let normalizedFeatures : MoodFeatures := {
    tempo := (tempo - 40) / (200 - 40),
    loudness := min (rms * 2) 1,
    complexity := timbre.complexity,
    brightness := timbre.brightness,
    roughness := timbre.roughness,
    warmth := timbre.warmth,
    isMinor := if key.scale = "minor" then 1 else 0,
    keyConfidence := key.confidence }
  let arousal := calculateArousal normalizedFeatures
  let valence := calculateValence normalizedFeatures
  let dominance := calculateDominance normalizedFeatures
  let emotionalState := mapToEmotionalState arousal valence dominance
  let genre := detectGenre tempo timbre key
  let culturalColors ← getCulturalColorMapping emotionalState genre
  Except.ok
    { emotional := emotionalState, genre := genre, arousal := arousal,
      valence := valence, dominance := dominance,
      culturalColors := culturalColors }

/-! ## A computable lawful interpretation of the `Math` primitives -/

/-- Kernel-computable integer square root by fuel-bounded bisection:
maintains `lo*lo ≤ n < hi*hi`. -/
def natSqrtGo (n : ℕ) : ℕ → ℕ → ℕ → ℕ
  | 0, lo, _ => lo
  | fuel + 1, lo, hi =>
      if lo + 1 < hi then
        if ((lo + hi) / 2) * ((lo + hi) / 2) ≤ n then
          natSqrtGo n fuel ((lo + hi) / 2) hi
        else
          natSqrtGo n fuel lo ((lo + hi) / 2)
      else lo

/-- Floor square root of a natural number (bisection; the fuel `n + 2`
always suffices since the search interval shrinks at every step). -/
def natSqrt (n : ℕ) : ℕ := natSqrtGo n (n + 2) 0 (n + 1)


/-- Exact rational square root: `some r` when `q` is the square of a
nonnegative rational `r` (detected on the canonical numerator and
denominator). -/
def ratSqrtQ (q : ℚ) : Option ℚ :=
  if 0 ≤ q.num ∧ natSqrt q.num.toNat * natSqrt q.num.toNat = q.num.toNat ∧
      natSqrt q.den * natSqrt q.den = q.den then
    some ((natSqrt q.num.toNat : ℚ) / (natSqrt q.den : ℚ))
  else none

/-- A computable interpretation of the `Math` primitives: `sqrt` is exact
on perfect squares (and otherwise returns a placeholder), `cos` returns a
finite placeholder on finite arguments, and the remaining primitives are
unconstrained placeholders; it satisfies every law in `MathOps.Lawful`. -/
def ratOps : MathOps where
  sqrt := fun x => match x with
    | fin q =>
        if q < 0 then nan else
          match ratSqrtQ q with
          | some r => fin r
          | none => fin 0
    | nan => nan
    | inf true => inf true
    | inf false => nan
  cos := fun x => match x with
    | fin _ => fin 0
    | _ => nan
  log := fun _ => fin 0
  log2 := fun _ => fin 0
  log10 := fun _ => fin 0
  exp := fun _ => fin 0
  pow := fun _ _ => fin 0
  pi := 0


/-- The downsampled (rate-128) impulse pattern of the concrete tempo
counterexample: two 8-sample-wide energy bursts 160 apart (indices 48 and
208) plus one 2-sample burst at index 204, in a 260-sample buffer whose
variance is a perfect rational square (std = 33/130 exactly). -/
def c6ds : List ℚ :=
  List.replicate 48 0 ++ List.replicate 8 1 ++ List.replicate 148 0 ++
    List.replicate 2 1 ++ List.replicate 2 0 ++ List.replicate 8 1 ++
      List.replicate 44 0

/-- The concrete tempo counterexample signal: sample rate 128; every
fourth sample carries the downsampled pattern (the samples the
downsampling loop skips are zero). -/
def c6sig : Signal :=
  ⟨(c6ds.map (fun v => [v, 0, 0, 0])).flatten, 128⟩


/-! # Theorems

All definitions are above; everything below is lemmas and the claim
theorems. -/

theorem MathOps.Lawful.sqrt_zero {M : MathOps} (h : M.Lawful) :
    M.sqrt (fin 0) = fin 0 :=
  h.sqrt_exact 0 0 le_rfl (by norm_num)
theorem natSqrtGo_spec (n : ℕ) : ∀ fuel lo hi, lo * lo ≤ n → n < hi * hi →
    hi ≤ lo + fuel →
    natSqrtGo n fuel lo hi * natSqrtGo n fuel lo hi ≤ n ∧
      n < (natSqrtGo n fuel lo hi + 1) * (natSqrtGo n fuel lo hi + 1) := by
  intro fuel
  induction fuel with
  | zero =>
      intro lo hi hlo hhi hfuel
      exfalso
      have hlt : lo < hi := by
        by_contra hcon
        push_neg at hcon
        exact absurd (lt_of_le_of_lt hlo hhi)
          (by push_neg; exact Nat.mul_le_mul hcon hcon)
      omega
  | succ fuel ih =>
      intro lo hi hlo hhi hfuel
      simp only [natSqrtGo]
      by_cases hc : lo + 1 < hi
      · rw [if_pos hc]
        by_cases hm : ((lo + hi) / 2) * ((lo + hi) / 2) ≤ n
        · rw [if_pos hm]
          exact ih ((lo + hi) / 2) hi hm hhi (by omega)
        · rw [if_neg hm]
          exact ih lo ((lo + hi) / 2) hlo (by omega) (by omega)
      · rw [if_neg hc]
        refine ⟨hlo, ?_⟩
        have h1 : hi ≤ lo + 1 := by omega
        calc n < hi * hi := hhi
          _ ≤ (lo + 1) * (lo + 1) := Nat.mul_le_mul h1 h1

/-- On perfect squares the bisection square root is exact. -/
theorem natSqrt_sq (m : ℕ) : natSqrt (m * m) = m := by
  unfold natSqrt
  obtain ⟨h1, h2⟩ := natSqrtGo_spec (m * m) (m * m + 2) 0 (m * m + 1)
    (by simp) (by nlinarith) (by omega)
  set r := natSqrtGo (m * m) (m * m + 2) 0 (m * m + 1) with hr
  have hle : r ≤ m := by
    by_contra hcon
    push_neg at hcon
    have hmul : m * m < r * r :=
      Nat.mul_lt_mul_of_lt_of_le hcon (le_of_lt hcon) (by omega)
    omega
  have hge : m ≤ r := by
    by_contra hcon
    push_neg at hcon
    have hmul : (r + 1) * (r + 1) ≤ m * m := Nat.mul_le_mul (by omega) (by omega)
    omega
  omega
theorem ratSqrtQ_sq (q r : ℚ) (hr : 0 ≤ r) (hrq : r * r = q) :
    ratSqrtQ q = some r := by
  subst hrq
  have hrnum : 0 ≤ r.num := Rat.num_nonneg.mpr hr
  obtain ⟨n, hn⟩ := Int.eq_ofNat_of_zero_le hrnum
  have htn : (r * r).num.toNat = n * n := by
    have hcast : ((n * n : ℕ) : ℤ) = (n : ℤ) * (n : ℤ) := by push_cast; ring
    rw [Rat.mul_self_num, hn, ← hcast, Int.toNat_natCast]
  have hden : (r * r).den = r.den * r.den := Rat.mul_self_den r
  have h1 : natSqrt (r * r).num.toNat = n := by rw [htn, natSqrt_sq]
  have h2 : natSqrt (r * r).den = r.den := by rw [hden, natSqrt_sq]
  have hcond : 0 ≤ (r * r).num ∧
      natSqrt (r * r).num.toNat * natSqrt (r * r).num.toNat = (r * r).num.toNat ∧
      natSqrt (r * r).den * natSqrt (r * r).den = (r * r).den :=
    ⟨by rw [Rat.mul_self_num, hn]; positivity, by rw [h1, htn], by rw [h2, hden]⟩
  unfold ratSqrtQ
  rw [if_pos hcond, h1, h2]
  congr 1
  have hq : ((n : ℚ)) = ((r.num : ℚ)) := by exact_mod_cast hn.symm
  rw [hq]
  exact Rat.num_div_den r
theorem ratOps_lawful : ratOps.Lawful := by
  constructor
  · intro q r hr hrq
    have hq : 0 ≤ q := hrq ▸ mul_self_nonneg r
    show (if q < 0 then nan else
      match ratSqrtQ q with
      | some r => fin r
      | none => fin 0) = fin r
    rw [if_neg (not_lt.mpr hq), ratSqrtQ_sq q r hr hrq]
  · intro q
    exact ⟨0, rfl⟩

/-! ### General-purpose lemmas -/

theorem jsAdd_assoc (a b c : JsNum) :
    JsNum.add (JsNum.add a b) c = JsNum.add a (JsNum.add b c) := by
  cases a <;> cases b <;> cases c <;>
    simp only [JsNum.add, add_assoc] <;>
    (try split_ifs) <;> simp_all [JsNum.add]

theorem jsAdd_zero (a : JsNum) : JsNum.add a (fin 0) = a := by
  cases a <;> simp [JsNum.add]

theorem foldl_const {f : β → α → β} {b : β} :
    ∀ {l : List α}, (∀ x ∈ l, f b x = b) → l.foldl f b = b
  | [], _ => rfl
  | x :: xs, h => by
      rw [List.foldl_cons, h x (List.mem_cons_self x xs)]
      exact foldl_const (fun y hy => h y (List.mem_cons_of_mem x hy))

theorem foldl_inv {P : β → Prop} {f : β → α → β} :
    ∀ {l : List α} {b : β}, P b → (∀ st x, x ∈ l → P st → P (f st x)) →
      P (l.foldl f b)
  | [], _, hb, _ => hb
  | x :: xs, b, hb, hstep => by
      rw [List.foldl_cons]
      exact foldl_inv (hstep b x (List.mem_cons_self x xs) hb)
        (fun st y hy => hstep st y (List.mem_cons_of_mem x hy))

theorem jsSum_zeros : ∀ {l : List JsNum}, (∀ x ∈ l, x = fin 0) → jsSum l = fin 0 := by
  intro l h
  unfold jsSum
  refine foldl_const (fun x hx => ?_)
  rw [h x hx, jsAdd_zero]

theorem except_bind_ok {α β : Type} {x : Except JsErr α}
    {f : α → Except JsErr β} {r : β} (h : (x >>= f) = Except.ok r) :
    ∃ y, x = Except.ok y ∧ f y = Except.ok r := by
  cases hx : x with
  | error e =>
      rw [hx] at h
      simp only [bind, Except.bind] at h
      exact Except.noConfusion h
  | ok y =>
      rw [hx] at h
      exact ⟨y, rfl, by simpa only [bind, Except.bind] using h⟩

theorem except_bind_error {α β : Type} (x : Except JsErr α)
    (f : α → Except JsErr β) (hf : ∀ a, f a = Except.error JsErr.typeError) :
    (x >>= f) = Except.error JsErr.typeError := by
  cases x with
  | error e => cases e; simp only [bind, Except.bind]
  | ok a => simpa only [bind, Except.bind] using hf a

theorem except_bind_err_of_ok {α β : Type} (x : Except JsErr α)
    (f : α → Except JsErr β)
    (hf : ∀ a, x = Except.ok a → f a = Except.error JsErr.typeError) :
    (x >>= f) = Except.error JsErr.typeError := by
  cases x with
  | error e => cases e; simp only [bind, Except.bind]
  | ok a => simpa only [bind, Except.bind] using hf a rfl

theorem complexity_on_aggregate (a b c d e f g : JVal) :
    calculateTimbreComplexity (JVal.obj [("spectralCentroid", a),
      ("complexity", b), ("harmonicContent", c), ("brightness", d),
      ("roughness", e), ("mfccs", f), ("temporalVariation", g)]) =
      Except.error JsErr.typeError := rfl

theorem aggregate_complexity_fails (M : MathOps) (ss : List JVal) (rate : ℕ)
    (v : JVal) (h : aggregateTimbreFeatures M ss rate = Except.ok v) :
    calculateTimbreComplexity v = Except.error JsErr.typeError := by
  unfold aggregateTimbreFeatures at h
  obtain ⟨names, _, h⟩ := except_bind_ok h
  obtain ⟨features, _, h⟩ := except_bind_ok h
  obtain ⟨complexity, _, h⟩ := except_bind_ok h
  obtain ⟨sc, _, h⟩ := except_bind_ok h
  obtain ⟨scMean, _, h⟩ := except_bind_ok h
  obtain ⟨hc, _, h⟩ := except_bind_ok h
  obtain ⟨hcMean, _, h⟩ := except_bind_ok h
  obtain ⟨ro, _, h⟩ := except_bind_ok h
  obtain ⟨roMean, _, h⟩ := except_bind_ok h
  obtain ⟨fl, _, h⟩ := except_bind_ok h
  obtain ⟨flMean, _, h⟩ := except_bind_ok h
  obtain ⟨mf, _, h⟩ := except_bind_ok h
  obtain ⟨tv, _, h⟩ := except_bind_ok h
  injection h with h
  rw [← h]
  exact complexity_on_aggregate _ _ _ _ _ _ _

theorem foldl_add_step (a : JsNum) :
    ∀ (l : List JsNum) (b : JsNum),
      l.foldl (fun s x => JsNum.add s (JsNum.mul x x)) (JsNum.add a b) =
        JsNum.add a (l.foldl (fun s x => JsNum.add s (JsNum.mul x x)) b)
  | [], _ => rfl
  | x :: xs, b => by
      rw [List.foldl_cons, List.foldl_cons]
      show List.foldl _ (JsNum.add (JsNum.add a b) (JsNum.mul x x)) xs = _
      rw [jsAdd_assoc]
      exact foldl_add_step a xs (JsNum.add b (JsNum.mul x x))

theorem extractRmsGo_spec :
    ∀ (fuel : ℕ) (l : List JsNum) (acc : JsNum) (cnt : ℕ), l.length < fuel →
      extractRmsGo fuel acc cnt l =
        (l.foldl (fun s x => JsNum.add s (JsNum.mul x x)) acc, cnt + l.length)
  | _ + 1, [], _, _, _ => by simp [extractRmsGo]
  | fuel + 1, x :: xs, acc, cnt, h => by
      show extractRmsGo fuel
          (JsNum.add acc (rmsWindowSum ((x :: xs).take 2048)))
          (cnt + min 2048 (x :: xs).length) ((x :: xs).drop 2048) = _
      rw [extractRmsGo_spec fuel ((x :: xs).drop 2048) _ _
        (by simp only [List.length_drop, List.length_cons] at h ⊢; omega)]
      have hfold : JsNum.add acc (rmsWindowSum ((x :: xs).take 2048)) =
          ((x :: xs).take 2048).foldl
            (fun s x => JsNum.add s (JsNum.mul x x)) acc := by
        unfold rmsWindowSum
        rw [← foldl_add_step acc ((x :: xs).take 2048) (fin 0), jsAdd_zero]
      rw [hfold, ← List.foldl_append, List.take_append_drop]
      simp only [Prod.mk.injEq, true_and]
      rw [List.length_drop]
      omega

/-! ### Claims C1 and C2 — the timbre extractor never returns -/

theorem extractTimbre_typeError (M : MathOps) (sig : Signal) :
    extractTimbre M sig = Except.error JsErr.typeError := by
  unfold extractTimbre
  refine except_bind_error _ _ (fun ss => ?_)
  show (aggregateTimbreFeatures M ss sig.sampleRate >>= _) = _
  refine except_bind_err_of_ok _ _ (fun v hA => ?_)
  show (calculateTimbreComplexity v >>= _) = _
  rw [aggregate_complexity_fails M ss sig.sampleRate v hA]
  simp only [bind, Except.bind]

/-- C1: for every `Math` interpretation and every input signal,
`extractTimbre` raises a `TypeError` instead of returning a result.  When
the signal yields at least one analysis frame, `aggregateTimbreFeatures`
returns an object without a `spectralSpread` field and
`calculateTimbreComplexity` dereferences `features.spectralSpread.std` on
it; when it yields none, `aggregateTimbreFeatures` itself calls
`Object.keys` on `segmentFeatures[0] = undefined`.  Either way no
`TimbreResult` is ever produced. -/
theorem C1_extractTimbre_always_throws (M : MathOps) (sig : Signal) :
    extractTimbre M sig = Except.error JsErr.typeError :=
  extractTimbre_typeError M sig

/-- C2: the specification bounds the scalar fields of the `TimbreResult`
returned by `extractTimbre` (`complexity`, `brightness`, `warmth`,
`roughness`, `variation` in `[0,1]`, etc.), but no such result exists: on
a concrete 2100-sample valid signal — long enough to yield an analysis
frame, so the whole spectral pipeline runs — `extractTimbre` ends in a
`TypeError`, so the claimed bounds hold of no output at all. -/
theorem C2_timbre_bounds_hold_of_no_output :
    extractTimbre ratOps ⟨List.replicate 2100 0, 44100⟩ =
      Except.error JsErr.typeError :=
  extractTimbre_typeError ratOps ⟨List.replicate 2100 0, 44100⟩

/-! ### Claim C7 — windowed RMS equals full-signal RMS -/

/-- C7: for every `Math` interpretation and every signal, the windowed
accumulation of `extractRms` (per-2048-sample squared sums, divided by the
total sample count, square-rooted at the end) returns exactly the naive
full-signal RMS `sqrt((1/N)·Σ samples[i]²)` — the windowing is purely an
implementation detail. -/
theorem C7_windowed_rms_equals_full_rms (M : MathOps) (sig : Signal) :
    extractRms M sig = rmsSpec M sig := by
  simp only [extractRms, rmsSpec]
  rw [extractRmsGo_spec ((sig.samples.map fin).length + 1) (sig.samples.map fin)
    (fin 0) 0 (Nat.lt_succ_self _)]
  simp only [jsSum, List.foldl_map, Nat.zero_add, List.length_map]
  congr 1
  obtain ⟨S, hS⟩ : ∃ q, List.foldl
      (fun s r => JsNum.add s (JsNum.mul (fin r) (fin r))) (fin 0) sig.samples
      = fin q := by
    refine foldl_inv (P := fun s => ∃ q, s = fin q) ⟨0, rfl⟩
      (fun st r _ hst => ?_)
    obtain ⟨q, rfl⟩ := hst
    exact ⟨q + r * r, rfl⟩
  rw [hS]
  by_cases hN : sig.samples.length = 0
  · rw [List.length_eq_zero.mp hN] at hS
    simp only [List.foldl_nil] at hS
    rw [hN, ← hS]
    norm_num [JsNum.div, JsNum.mul]
  · have hNQ : ((sig.samples.length : ℚ)) ≠ 0 := by exact_mod_cast hN
    have h1 : JsNum.div (fin S) (fin (sig.samples.length : ℚ)) =
        fin (S / (sig.samples.length : ℚ)) := by
      simp only [JsNum.div]
      rw [if_neg hNQ]
    have h2 : JsNum.div (fin 1) (fin (sig.samples.length : ℚ)) =
        fin (1 / (sig.samples.length : ℚ)) := by
      simp only [JsNum.div]
      rw [if_neg hNQ]
    rw [h1, h2]
    show _ = fin (1 / (sig.samples.length : ℚ) * S)
    rw [one_div_mul_eq_div]

/-! ### Claim C3 — the silent signal: RMS 0, pitch absent -/

theorem zn_mul {x y : JsNum} (hx : x = fin 0 ∨ x = nan)
    (hy : y = fin 0 ∨ y = nan) :
    JsNum.mul x y = fin 0 ∨ JsNum.mul x y = nan := by
  rcases hx with rfl | rfl <;> rcases hy with rfl | rfl <;> simp [JsNum.mul]

theorem zn_jsSum {l : List JsNum} (h : ∀ x ∈ l, x = fin 0 ∨ x = nan) :
    jsSum l = fin 0 ∨ jsSum l = nan := by
  unfold jsSum
  refine foldl_inv (P := fun s => s = fin 0 ∨ s = nan) (Or.inl rfl)
    (fun st x hx hst => ?_)
  rcases hst with rfl | rfl <;> rcases h x hx with rfl | rfl <;>
    simp [JsNum.add]

theorem zn_hanning (M : MathOps) (l : List JsNum) (h : ∀ x ∈ l, x = fin 0) :
    ∀ y ∈ applyHanningWindow M l, y = fin 0 ∨ y = nan := by
  intro y hy
  unfold applyHanningWindow at hy
  obtain ⟨p, hp, rfl⟩ := List.mem_map.mp hy
  obtain ⟨i, x⟩ := p
  rw [List.enum_eq_zip_range] at hp
  have hx : x ∈ l := (List.of_mem_zip hp).2
  show JsNum.mul x _ = fin 0 ∨ JsNum.mul x _ = nan
  rw [h x hx]
  cases hm : JsNum.mul (fin (1/2)) (JsNum.sub (fin 1)
      (M.cos (JsNum.div (fin (2 * M.pi * i)) (fin ((l.length : ℚ) - 1))))) with
  | fin c => left; simp [JsNum.mul]
  | nan => right; rfl
  | inf s => right; simp [JsNum.mul]

theorem autocorrAt_zn (signal : List JsNum)
    (h : ∀ x ∈ signal, x = fin 0 ∨ x = nan) (lag : ℕ) :
    autocorrAt signal lag = fin 0 := by
  simp only [autocorrAt]
  have hE : jsSum ((signal.take (signal.length - lag)).map
        (fun x => JsNum.mul x x)) = fin 0 ∨
      jsSum ((signal.take (signal.length - lag)).map
        (fun x => JsNum.mul x x)) = nan := by
    refine zn_jsSum (fun y hy => ?_)
    obtain ⟨x, hx, rfl⟩ := List.mem_map.mp hy
    exact zn_mul (h x (List.mem_of_mem_take hx)) (h x (List.mem_of_mem_take hx))
  rcases hE with hE | hE <;> rw [hE] <;> norm_num [JsNum.gt, JsNum.lt]

theorem autocorrelationPitch_zn (signal : List JsNum) (rate : ℕ)
    (h : ∀ x ∈ signal, x = fin 0 ∨ x = nan) :
    autocorrelationPitch signal rate = (none, fin 0) := by
  simp only [autocorrelationPitch]
  have hbest : (List.range signal.length).foldl
      (fun (best : JsNum × ℕ) lag =>
        if 20 < lag then
          let c := autocorrAt signal lag
          if JsNum.gt c best.1 then (c, lag) else best
        else best)
      (fin 0, 0) = (fin 0, 0) := by
    refine foldl_const (fun lag _ => ?_)
    by_cases h20 : 20 < lag
    · rw [if_pos h20]
      show (if JsNum.gt (autocorrAt signal lag) (fin 0, 0).1 = true
        then (autocorrAt signal lag, lag) else (fin 0, 0)) = (fin 0, 0)
      rw [autocorrAt_zn signal h lag]
      norm_num [JsNum.gt, JsNum.lt]
    · rw [if_neg h20]
  rw [hbest]
  norm_num [JsNum.gt, JsNum.lt]

theorem pitchCandidates_zero_signal (M : MathOps) (sig : Signal)
    (h : ∀ q ∈ sig.samples, q = 0) :
    pitchCandidates M sig = [] := by
  simp only [pitchCandidates]
  refine foldl_const (fun ws _ => ?_)
  refine foldl_const (fun i _ => ?_)
  have hz : ∀ x ∈ applyHanningWindow M
      (((sig.samples.map fin).drop ((sig.samples.map fin).length * i / 3)).take
        ws), x = fin 0 ∨ x = nan := by
    refine zn_hanning M _ (fun x hx => ?_)
    obtain ⟨q, hq, rfl⟩ := List.mem_map.mp
      (List.mem_of_mem_drop (List.mem_of_mem_take hx))
    rw [h q hq]
  rw [autocorrelationPitch_zn _ sig.sampleRate hz]

theorem extractRms_silent (M : MathOps) (hM : M.Lawful) (rate : ℕ)
    (hr : 1 ≤ rate) :
    extractRms M ⟨List.replicate rate 0, rate⟩ = fin 0 := by
  simp only [extractRms, List.map_replicate]
  rw [extractRmsGo_spec _ _ _ _ (Nat.lt_succ_self _)]
  have hfold : (List.replicate rate (fin 0)).foldl
      (fun s x => JsNum.add s (JsNum.mul x x)) (fin 0) = fin 0 := by
    refine foldl_const (fun x hx => ?_)
    rw [List.eq_of_mem_replicate hx]
    norm_num [JsNum.add, JsNum.mul]
  rw [hfold]
  simp only [Nat.zero_add, List.length_replicate]
  have hrQ : ((rate : ℚ)) ≠ 0 := Nat.cast_ne_zero.mpr (by omega)
  have hdiv : JsNum.div (fin 0) (fin (rate : ℚ)) = fin 0 := by
    simp only [JsNum.div]
    rw [if_neg hrQ]
    norm_num
  rw [hdiv, hM.sqrt_zero]

theorem extractPitch_silent (M : MathOps) (rate : ℕ) :
    extractPitch M ⟨List.replicate rate 0, rate⟩ = none := by
  simp only [extractPitch]
  rw [pitchCandidates_zero_signal M _ (fun q hq => List.eq_of_mem_replicate hq)]
  simp

/-- C3: a silent one-second signal (all samples `0`, `rate` samples at
sample rate `rate ≥ 1`) yields exactly `0` from `extractRms` and the
absent pitch (`none`) from `extractPitch`, for every lawful `Math`
interpretation.  Both functions are total in this embedding — the source
paths they model raise no exception — and the zero-energy guard plus the
`[20, 2000]` Hz / clarity tests reject every lag, so no candidate is ever
produced. -/
theorem C3_silent_signal (M : MathOps) (hM : M.Lawful) (rate : ℕ)
    (hr : 1 ≤ rate) :
    extractRms M ⟨List.replicate rate 0, rate⟩ = fin 0 ∧
      extractPitch M ⟨List.replicate rate 0, rate⟩ = none :=
  ⟨extractRms_silent M hM rate hr, extractPitch_silent M rate⟩

/-- C3 witness: the theorem applied to the concrete interpretation
`ratOps` at sample rate 8000. -/
theorem C3_silent_signal_witness :
    extractRms ratOps ⟨List.replicate 8000 0, 8000⟩ = fin 0 ∧
      extractPitch ratOps ⟨List.replicate 8000 0, 8000⟩ = none :=
  C3_silent_signal ratOps ratOps_lawful 8000 (by norm_num)

/-! ### Claim C4 — the pitch estimator: absence and range -/

theorem jsGe_le_fin {lo hi : ℚ} {x : JsNum} (hge : JsNum.ge x (fin lo) = true)
    (hle : JsNum.le x (fin hi) = true) :
    ∃ q : ℚ, x = fin q ∧ lo ≤ q ∧ q ≤ hi := by
  cases x with
  | fin q =>
      refine ⟨q, rfl, ?_, ?_⟩
      · simpa [JsNum.ge, JsNum.le] using hge
      · simpa [JsNum.le] using hle
  | nan => simp [JsNum.ge, JsNum.le] at hge
  | inf s => cases s <;> simp [JsNum.ge, JsNum.le] at hge hle

theorem autocorrelationPitch_freq_range {signal : List JsNum} {rate : ℕ}
    {p : JsNum} (h : (autocorrelationPitch signal rate).1 = some p) :
    ∃ q : ℚ, p = fin q ∧ 20 ≤ q ∧ q ≤ 2000 := by
  simp only [autocorrelationPitch] at h
  split at h
  next hc =>
    rw [Bool.and_eq_true] at hc
    obtain ⟨hc1, _⟩ := hc
    rw [Bool.and_eq_true] at hc1
    obtain ⟨hge, hle⟩ := hc1
    simp only [Option.some.injEq] at h
    obtain ⟨q, hq, h1, h2⟩ := jsGe_le_fin hge hle
    exact ⟨q, by rw [← h, hq], h1, h2⟩
  next => simp at h

theorem pitchCandidates_range (M : MathOps) (sig : Signal) :
    ∀ cnd ∈ pitchCandidates M sig,
      ∃ q : ℚ, cnd.1 = fin q ∧ 20 ≤ q ∧ q ≤ 2000 := by
  simp only [pitchCandidates]
  refine foldl_inv (P := fun (acc : List (JsNum × JsNum)) => ∀ cnd ∈ acc,
    ∃ q : ℚ, cnd.1 = fin q ∧ 20 ≤ q ∧ q ≤ 2000) (by simp) ?_
  intro acc ws _ hacc
  refine foldl_inv (P := fun (acc : List (JsNum × JsNum)) => ∀ cnd ∈ acc,
    ∃ q : ℚ, cnd.1 = fin q ∧ 20 ≤ q ∧ q ≤ 2000) hacc ?_
  intro acc2 i _ hacc2
  dsimp only
  split
  next p heq =>
    split
    · intro cnd hc
      rcases List.mem_append.mp hc with hmem | hnew
      · exact hacc2 cnd hmem
      · rw [List.mem_singleton] at hnew
        subst hnew
        exact autocorrelationPitch_freq_range heq
    · exact hacc2
  next => exact hacc2

theorem insSorted_mem {before : α → α → Bool} {x : α} :
    ∀ {l : List α} {y : α}, y ∈ insSorted before x l → y = x ∨ y ∈ l
  | [], y, h => by
      simp only [insSorted, List.mem_singleton] at h
      exact Or.inl h
  | z :: zs, y, h => by
      simp only [insSorted] at h
      split at h
      · rcases List.mem_cons.mp h with rfl | h2
        · exact Or.inl rfl
        · exact Or.inr h2
      · rcases List.mem_cons.mp h with rfl | h2
        · exact Or.inr (List.mem_cons_self _ _)
        · rcases insSorted_mem h2 with h3 | h3
          · exact Or.inl h3
          · exact Or.inr (List.mem_cons_of_mem _ h3)

theorem insSorted_length {before : α → α → Bool} {x : α} :
    ∀ (l : List α), (insSorted before x l).length = l.length + 1
  | [] => rfl
  | z :: zs => by
      simp only [insSorted]
      split
      · rfl
      · simp only [List.length_cons, insSorted_length zs]

theorem jsSortBy_sub_mem {before : α → α → Bool} (l : List α) :
    ∀ y ∈ jsSortBy before l, y ∈ l := by
  unfold jsSortBy
  refine foldl_inv (P := fun (acc : List α) => ∀ y ∈ acc, y ∈ l) (by simp) ?_
  intro acc x hx hacc y hy
  rcases insSorted_mem hy with rfl | h2
  · exact hx
  · exact hacc y h2

theorem foldl_insSorted_length {before : α → α → Bool} :
    ∀ (l acc : List α),
      (l.foldl (fun acc x => insSorted before x acc) acc).length =
        acc.length + l.length
  | [], acc => by simp
  | x :: xs, acc => by
      rw [List.foldl_cons, foldl_insSorted_length xs, insSorted_length]
      simp only [List.length_cons]
      omega

theorem jsSortBy_len {before : α → α → Bool} (l : List α) :
    (jsSortBy before l).length = l.length := by
  unfold jsSortBy
  rw [foldl_insSorted_length]
  simp

theorem getD_range {l : List JsNum} {lo hi : ℚ}
    (h : ∀ x ∈ l, ∃ q : ℚ, x = fin q ∧ lo ≤ q ∧ q ≤ hi) {n : ℕ}
    (hn : n < l.length) :
    ∃ q : ℚ, l.getD n nan = fin q ∧ lo ≤ q ∧ q ≤ hi := by
  rw [List.getD_eq_getElem l nan hn]
  exact h _ (List.getElem_mem hn)

theorem getMedian_range {values : List JsNum} {lo hi : ℚ} (hne : values ≠ [])
    (h : ∀ x ∈ values, ∃ q : ℚ, x = fin q ∧ lo ≤ q ∧ q ≤ hi) :
    ∃ q : ℚ, getMedian values = fin q ∧ lo ≤ q ∧ q ≤ hi := by
  simp only [getMedian]
  have hlen : (jsSortBy (fun a b => JsNum.lt (JsNum.sub a b) (fin 0))
      values).length = values.length := jsSortBy_len values
  have hmem : ∀ x ∈ jsSortBy (fun a b => JsNum.lt (JsNum.sub a b) (fin 0))
      values, ∃ q : ℚ, x = fin q ∧ lo ≤ q ∧ q ≤ hi :=
    fun x hx => h x (jsSortBy_sub_mem values x hx)
  have hpos : 0 < values.length := List.length_pos.mpr hne
  split
  next hev =>
    obtain ⟨a, ha, ha1, ha2⟩ := getD_range hmem
      (n := (jsSortBy (fun a b => JsNum.lt (JsNum.sub a b) (fin 0))
        values).length / 2 - 1) (by omega)
    obtain ⟨b, hb, hb1, hb2⟩ := getD_range hmem
      (n := (jsSortBy (fun a b => JsNum.lt (JsNum.sub a b) (fin 0))
        values).length / 2) (by omega)
    rw [ha, hb]
    refine ⟨(a + b) / 2, ?_, by linarith, by linarith⟩
    show JsNum.div (fin (a + b)) (fin 2) = fin ((a + b) / 2)
    simp only [JsNum.div]
    rw [if_neg (by norm_num)]
  next hodd =>
    exact getD_range hmem (by omega)

theorem extractPitch_none_iff (M : MathOps) (sig : Signal) :
    extractPitch M sig = none ↔ pitchCandidates M sig = [] := by
  simp only [extractPitch]
  by_cases hc : pitchCandidates M sig = []
  · rw [hc]
    simp
  · rw [if_pos (List.length_pos.mpr hc)]
    simp [hc]

theorem extractPitch_range (M : MathOps) (sig : Signal) (p : JsNum)
    (h : extractPitch M sig = some p) :
    ∃ q : ℚ, p = fin q ∧ 20 ≤ q ∧ q ≤ 2000 := by
  simp only [extractPitch] at h
  split at h
  next hpos =>
    simp only [Option.some.injEq] at h
    subst h
    have hmem : ∀ x ∈ ((jsSortBy
        (fun a b => JsNum.lt (JsNum.sub b.2 a.2) (fin 0))
        (pitchCandidates M sig)).take
          (min 5 (pitchCandidates M sig).length)).map Prod.fst,
        ∃ q : ℚ, x = fin q ∧ 20 ≤ q ∧ q ≤ 2000 := by
      intro x hx
      obtain ⟨cnd, hcnd, rfl⟩ := List.mem_map.mp hx
      exact pitchCandidates_range M sig cnd
        (jsSortBy_sub_mem _ cnd (List.mem_of_mem_take hcnd))
    have hne : ((jsSortBy
        (fun a b => JsNum.lt (JsNum.sub b.2 a.2) (fin 0))
        (pitchCandidates M sig)).take
          (min 5 (pitchCandidates M sig).length)).map Prod.fst ≠ [] := by
      have := @jsSortBy_len (JsNum × JsNum)
        (fun a b => JsNum.lt (JsNum.sub b.2 a.2) (fin 0))
        (pitchCandidates M sig)
      simp only [ne_eq, ← List.length_eq_zero, List.length_map,
        List.length_take]
      omega
    obtain ⟨q, hq, h1, h2⟩ := getMedian_range hne hmem
    rw [hq]
    refine ⟨((⌊q + 1/2⌋ : ℤ) : ℚ), rfl, ?_, ?_⟩
    · have h20 : (20 : ℤ) ≤ ⌊q + 1/2⌋ := by
        rw [Int.le_floor]
        push_cast
        linarith
      exact_mod_cast h20
    · have h2000 : ⌊q + 1/2⌋ < 2001 := by
        rw [Int.floor_lt]
        push_cast
        linarith
      have : ⌊q + 1/2⌋ ≤ 2000 := by omega
      exact_mod_cast this
  next => exact Option.noConfusion h

/-- C4: for every `Math` interpretation and every signal, `extractPitch`
returns `null` exactly when the accepted candidate list (frequency in
`[20, 2000]` Hz with clarity above 0.3 in `autocorrelationPitch`, then
clarity above 0.5 in the collection loop) is empty; and any pitch it does
return — the rounded median of the top at-most-five candidates by
clarity — is a finite value in `[20, 2000]`. -/
theorem C4_pitch_absent_iff_no_candidate (M : MathOps) (sig : Signal) :
    (extractPitch M sig = none ↔ pitchCandidates M sig = []) ∧
      ∀ p, extractPitch M sig = some p →
        ∃ q : ℚ, p = fin q ∧ 20 ≤ q ∧ q ≤ 2000 :=
  ⟨extractPitch_none_iff M sig, fun p h => extractPitch_range M sig p h⟩

/-! ### Claims C5 and C6 — the tempo estimator -/

theorem mapBump_keys {P : JsNum → Prop} :
    ∀ (bins : List (JsNum × ℕ)) (k : JsNum), (∀ e ∈ bins, P e.1) → P k →
      ∀ e ∈ mapBump bins k, P e.1
  | [], k, _, hk, e, he => by
      simp only [mapBump, List.mem_singleton] at he
      rw [he]; exact hk
  | (k', c) :: rest, k, hb, hk, e, he => by
      simp only [mapBump] at he
      by_cases hkk : k' = k
      · rw [if_pos hkk] at he
        rcases List.mem_cons.mp he with rfl | hmem
        · exact hb (k', c) (List.mem_cons_self _ _)
        · exact hb e (List.mem_cons_of_mem _ hmem)
      · rw [if_neg hkk] at he
        rcases List.mem_cons.mp he with rfl | hmem
        · exact hb (k', c) (List.mem_cons_self _ _)
        · exact mapBump_keys rest k
            (fun x hx => hb x (List.mem_cons_of_mem _ hx)) hk e hmem

theorem binKey_bounds {q : ℚ} (h40 : 40 ≤ q) (h200 : q ≤ 200) :
    8 ≤ ⌊q / 5 + 1/2⌋ ∧ ⌊q / 5 + 1/2⌋ ≤ 40 := by
  constructor
  · rw [Int.le_floor]
    push_cast
    linarith
  · have : ⌊q / 5 + 1/2⌋ < 41 := by
      rw [Int.floor_lt]
      push_cast
      linarith
    omega

theorem tempoBinsOf_keys (intervals : List JsNum) :
    ∀ e ∈ tempoBinsOf intervals,
      ∃ k : ℤ, e.1 = fin ((k : ℚ) * 5) ∧ 8 ≤ k ∧ k ≤ 40 := by
  unfold tempoBinsOf
  refine foldl_inv (P := fun (bins : List (JsNum × ℕ)) => ∀ e ∈ bins,
    ∃ k : ℤ, e.1 = fin ((k : ℚ) * 5) ∧ 8 ≤ k ∧ k ≤ 40) (by simp) ?_
  intro bins interval _ hbins
  dsimp only
  by_cases hg : (JsNum.ge (JsNum.div (fin 60) interval) (fin 40) &&
      JsNum.le (JsNum.div (fin 60) interval) (fin 200)) = true
  · rw [if_pos hg]
    rw [Bool.and_eq_true] at hg
    obtain ⟨hge, hle⟩ := hg
    obtain ⟨q, hq, h40, h200⟩ := jsGe_le_fin hge hle
    refine mapBump_keys (P := fun key =>
      ∃ k : ℤ, key = fin ((k : ℚ) * 5) ∧ 8 ≤ k ∧ k ≤ 40) bins _ hbins ?_
    rw [hq]
    have hdiv : JsNum.div (fin q) (fin 5) = fin (q / 5) := by
      simp only [JsNum.div]
      rw [if_neg (by norm_num)]
    rw [hdiv]
    refine ⟨⌊q / 5 + 1/2⌋, ?_, (binKey_bounds h40 h200).1,
      (binKey_bounds h40 h200).2⟩
    rfl
  · rw [if_neg hg]
    exact hbins

theorem bestBin_key (bins : List (JsNum × ℕ))
    (hb : ∀ e ∈ bins, ∃ k : ℤ, e.1 = fin ((k : ℚ) * 5) ∧ 8 ≤ k ∧ k ≤ 40) :
    ∃ k : ℤ, (bestBin bins).2 = fin ((k : ℚ) * 5) ∧ 8 ≤ k ∧ k ≤ 40 := by
  unfold bestBin
  refine foldl_inv (P := fun (best : ℕ × JsNum) =>
    ∃ k : ℤ, best.2 = fin ((k : ℚ) * 5) ∧ 8 ≤ k ∧ k ≤ 40)
    ⟨24, by norm_num, by norm_num, by norm_num⟩ ?_
  intro st e he hst
  dsimp only
  split
  · exact hb e he
  · exact hst

theorem tempoFromOnsets_key (onsets : List JsNum) :
    ∃ k : ℤ, (calculateTempoFromOnsets onsets).1 = fin ((k : ℚ) * 5) ∧
      8 ≤ k ∧ k ≤ 40 := by
  simp only [calculateTempoFromOnsets]
  exact bestBin_key _ (tempoBinsOf_keys _)

theorem round_five_mult (k : ℤ) :
    JsNum.round (fin ((k : ℚ) * 5)) = fin ((k : ℚ) * 5) := by
  simp only [JsNum.round]
  congr 1
  rw [show ((k : ℚ) * 5 + 1/2) = 1/2 + ((5 * k : ℤ) : ℚ) by push_cast; ring]
  rw [Int.floor_add_int]
  rw [show ⌊(1/2 : ℚ)⌋ = 0 by norm_num]
  push_cast
  ring

theorem extractTempo_range (M : MathOps) (sig : Signal) :
    ∃ q : ℚ, extractTempo M sig = fin q ∧ 40 ≤ q ∧ q ≤ 200 := by
  simp only [extractTempo]
  have hbest := foldl_inv (P := fun (best : JsNum × JsNum) =>
      ∃ k : ℤ, best.1 = fin ((k : ℚ) * 5) ∧ 8 ≤ k ∧ k ≤ 40)
    (l := tempoWindowSizes sig.sampleRate)
    (b := (fin 120, fin 0))
    (f := fun (best : JsNum × JsNum) windowSize =>
      if 2 ≤ (tempoOnsets M sig windowSize).length then
        if JsNum.gt (calculateTempoFromOnsets (tempoOnsets M sig windowSize)).2
            best.2 = true then
          calculateTempoFromOnsets (tempoOnsets M sig windowSize)
        else best
      else best)
    ⟨24, by norm_num, by norm_num, by norm_num⟩
    (fun st ws _ hst => by
      dsimp only
      split
      · split
        · exact tempoFromOnsets_key _
        · exact hst
      · exact hst)
  obtain ⟨k, hk, h8, h40⟩ := hbest
  refine ⟨(k : ℚ) * 5, ?_, ?_, ?_⟩
  · rw [hk, round_five_mult]
  · have : (8 : ℚ) ≤ (k : ℚ) := by exact_mod_cast h8
    linarith
  · have : (k : ℚ) ≤ (40 : ℚ) := by exact_mod_cast h40
    linarith

theorem extractTempo_default (M : MathOps) (sig : Signal)
    (h : ∀ w ∈ tempoWindowSizes sig.sampleRate,
      (tempoOnsets M sig w).length < 2) :
    extractTempo M sig = fin 120 := by
  simp only [extractTempo]
  have hfold : (tempoWindowSizes sig.sampleRate).foldl
      (fun (best : JsNum × JsNum) windowSize =>
        if 2 ≤ (tempoOnsets M sig windowSize).length then
          if JsNum.gt (calculateTempoFromOnsets (tempoOnsets M sig windowSize)).2
              best.2 = true then
            calculateTempoFromOnsets (tempoOnsets M sig windowSize)
          else best
        else best)
      (fin 120, fin 0) = (fin 120, fin 0) := by
    refine foldl_const (fun ws hws => ?_)
    dsimp only
    rw [if_neg (Nat.not_le.mpr (h ws hws))]
  rw [hfold]
  show JsNum.round (fin 120) = fin 120
  have := round_five_mult 24
  norm_num at this ⊢
  exact this

/-- C5: for every valid signal whose sample rate is at least 128 (below
128 the smallest analysis window is a single sample, its hop size is 0,
and the JS loop never terminates), the tempo `extractTempo` returns is a
finite value in `[40, 200]`; and whenever every one of the three window
sizes detects fewer than two onsets, it is exactly the default 120. -/
theorem C5_tempo_range_and_default (M : MathOps) (sig : Signal)
    (_hv : ValidSignal sig) (_hr : 128 ≤ sig.sampleRate) :
    (∃ q : ℚ, extractTempo M sig = fin q ∧ 40 ≤ q ∧ q ≤ 200) ∧
      ((∀ w ∈ tempoWindowSizes sig.sampleRate,
          (tempoOnsets M sig w).length < 2) → extractTempo M sig = fin 120) :=
  ⟨extractTempo_range M sig, fun h => extractTempo_default M sig h⟩

/-- C5 witness: the theorem applied to `ratOps` and a one-second silent
signal at sample rate 128 (which indeed detects no onsets). -/
theorem C5_tempo_range_and_default_witness :
    (∃ q : ℚ, extractTempo ratOps ⟨List.replicate 128 0, 128⟩ = fin q ∧
        40 ≤ q ∧ q ≤ 200) ∧
      ((∀ w ∈ tempoWindowSizes (128 : ℕ),
          (tempoOnsets ratOps ⟨List.replicate 128 0, 128⟩ w).length < 2) →
        extractTempo ratOps ⟨List.replicate 128 0, 128⟩ = fin 120) :=
  C5_tempo_range_and_default ratOps ⟨List.replicate 128 0, 128⟩
    (by refine ⟨by norm_num, by simp, fun x hx => ?_⟩
        rw [List.eq_of_mem_replicate hx]
        norm_num)
    (by norm_num)

theorem foldl_filterMap {f : α → Option β} {g : γ → β → γ} :
    ∀ (l : List α) (b : γ),
      (l.filterMap f).foldl g b =
        l.foldl (fun st x => match f x with | some y => g st y | none => st) b
  | [], _ => rfl
  | x :: xs, b => by
      cases hf : f x with
      | none =>
          simp only [List.filterMap_cons, List.foldl_cons, hf]
          exact foldl_filterMap xs b
      | some y =>
          simp only [List.filterMap_cons, List.foldl_cons, hf]
          exact foldl_filterMap xs (g b y)

theorem foldl_ext {f g : β → α → β} (h : ∀ st x, f st x = g st x) :
    ∀ (l : List α) (b : β), l.foldl f b = l.foldl g b
  | [], _ => rfl
  | x :: xs, b => by
      rw [List.foldl_cons, List.foldl_cons, h]
      exact foldl_ext h xs (g b x)

/-- C6 counterexample: on this valid 520-sample signal at rate 128, the
source's `extractTempo` keeps the per-window histogram winner with the
strictly highest per-window confidence and returns 195 BPM (largest
window: bin 195 with confidence 1/3), whereas the pooled histogram the
specification describes — all intervals of all three window sizes in one
histogram — has its most populous bin at 200 BPM (2 of 12 intervals,
confidence 1/6).  The spec's sentence and the code disagree on this
input. -/
theorem C6_pooled_histogram_counterexample :
    extractTempo ratOps c6sig = fin 195 ∧
      specPooledTempo ratOps c6sig = (fin 200, fin (1/6)) := by
  decide!

/-- C6 (amended): what `extractTempo` actually returns is the rounded
result of the per-window selection: each window size with at least two
onsets contributes its own 5-BPM histogram winner with per-window
confidence `maxCount / intervals.length`, and the candidate with the
strictly highest confidence wins (window order, starting from the default
`(120, 0)`) — not the most populous bin of a pooled histogram. -/
theorem C6_tempo_is_per_window_selection (M : MathOps) (sig : Signal) :
    extractTempo M sig = JsNum.round (perWindowTempoSelection M sig).1 := by
  simp only [extractTempo, perWindowTempoSelection]
  rw [foldl_filterMap]
  congr 2
  refine foldl_ext (fun st ws => ?_) _ _
  by_cases h2 : 2 ≤ (tempoOnsets M sig ws).length <;> simp [h2]

/-! ### Claim C8 — the key detector's vote combination and ranges -/

theorem lookup_cons_getD {k' : String} {c : ℕ} {rest : List (String × ℕ)}
    (tag : String) :
    (((k', c) :: rest).lookup tag).getD 0 =
      if tag = k' then c else (rest.lookup tag).getD 0 := by
  by_cases h : tag = k'
  · subst h
    simp [List.lookup]
  · have hb : (tag == k') = false := beq_eq_false_iff_ne.mpr h
    simp [List.lookup, h, hb]

theorem mapBumpKey_lookup (k tag : String) :
    ∀ (m : List (String × ℕ)),
      ((mapBumpKey m k).lookup tag).getD 0 =
        if tag = k then (m.lookup k).getD 0 + 1 else (m.lookup tag).getD 0
  | [] => by
      by_cases h : tag = k
      · subst h
        simp [mapBumpKey, List.lookup]
      · have hb : (tag == k) = false := beq_eq_false_iff_ne.mpr h
        simp [mapBumpKey, List.lookup, h, hb]
  | (k', c) :: rest => by
      simp only [mapBumpKey]
      by_cases hk : k' = k
      · subst hk
        rw [if_pos rfl]
        by_cases ht : tag = k'
        · subst ht
          rw [lookup_cons_getD, lookup_cons_getD, if_pos rfl, if_pos rfl,
            if_pos rfl]
        · rw [lookup_cons_getD, if_neg ht, if_neg ht, lookup_cons_getD,
            if_neg ht]
      · rw [if_neg hk, lookup_cons_getD]
        by_cases ht : tag = k'
        · subst ht
          rw [if_pos rfl, if_neg hk, lookup_cons_getD, if_pos rfl]
        · rw [if_neg ht, mapBumpKey_lookup k tag rest]
          by_cases htk : tag = k
          · rw [if_pos htk, if_pos htk, lookup_cons_getD,
              if_neg (fun hh => hk hh.symm)]
          · rw [if_neg htk, if_neg htk, lookup_cons_getD, if_neg ht]

theorem voteCount_append (pre : List KeyResult) (r : KeyResult) (tag : String) :
    voteCount (pre ++ [r]) tag =
      voteCount pre tag + (if keyTag r = tag then 1 else 0) := by
  simp only [voteCount, List.filter_append, List.length_append]
  by_cases h : keyTag r = tag
  · simp [List.filter, h]
  · simp [List.filter, h]

theorem combineStep_eq_pos (st : List (String × ℕ) × ℕ × Option KeyResult)
    (result : KeyResult)
    (hcond : st.2.1 < (st.1.lookup (result.rootNote ++ result.scale)).getD 0 + 1 ∨
      ((st.1.lookup (result.rootNote ++ result.scale)).getD 0 + 1 = st.2.1 ∧
        JsNum.gt result.correlation (corrOrZero st.2.2) = true)) :
    combineStep st result =
      (mapBumpKey st.1 (result.rootNote ++ result.scale),
        (st.1.lookup (result.rootNote ++ result.scale)).getD 0 + 1,
        some result) := by
  simp only [combineStep]
  rw [if_pos hcond]

theorem combineStep_eq_neg (st : List (String × ℕ) × ℕ × Option KeyResult)
    (result : KeyResult)
    (hcond : ¬(st.2.1 < (st.1.lookup (result.rootNote ++ result.scale)).getD 0 + 1 ∨
      ((st.1.lookup (result.rootNote ++ result.scale)).getD 0 + 1 = st.2.1 ∧
        JsNum.gt result.correlation (corrOrZero st.2.2) = true))) :
    combineStep st result =
      (mapBumpKey st.1 (result.rootNote ++ result.scale), st.2.1, st.2.2) := by
  simp only [combineStep]
  rw [if_neg hcond]

theorem combineStep_hist {pre : List KeyResult}
    {st : List (String × ℕ) × ℕ × Option KeyResult} (result : KeyResult)
    (hhist : ∀ tag, (st.1.lookup tag).getD 0 = voteCount pre tag) :
    ∀ tag, ((combineStep st result).1.lookup tag).getD 0 =
      voteCount (pre ++ [result]) tag := by
  intro tag
  have hfst : (combineStep st result).1 =
      mapBumpKey st.1 (result.rootNote ++ result.scale) := by
    by_cases hcond : st.2.1 <
        (st.1.lookup (result.rootNote ++ result.scale)).getD 0 + 1 ∨
      ((st.1.lookup (result.rootNote ++ result.scale)).getD 0 + 1 = st.2.1 ∧
        JsNum.gt result.correlation (corrOrZero st.2.2) = true)
    · rw [combineStep_eq_pos st result hcond]
    · rw [combineStep_eq_neg st result hcond]
  rw [hfst, mapBumpKey_lookup, voteCount_append]
  rw [show result.rootNote ++ result.scale = keyTag result from rfl]
  by_cases h : tag = keyTag result
  · subst h
    simp [hhist]
  · rw [if_neg h, if_neg (fun hh => h hh.symm), hhist]
    omega

theorem combineStep_count (pre : List KeyResult)
    (st : List (String × ℕ) × ℕ × Option KeyResult) (result : KeyResult)
    (hhist : ∀ tag, (st.1.lookup tag).getD 0 = voteCount pre tag) :
    (st.1.lookup (result.rootNote ++ result.scale)).getD 0 + 1 =
      voteCount (pre ++ [result]) (keyTag result) := by
  rw [voteCount_append]
  have hif : (if keyTag result = keyTag result then 1 else 0) = 1 := if_pos rfl
  rw [hif, hhist]
  rfl

theorem combineStep_best {pre : List KeyResult}
    {st : List (String × ℕ) × ℕ × Option KeyResult} (result : KeyResult)
    (hhist : ∀ tag, (st.1.lookup tag).getD 0 = voteCount pre tag)
    (hbest : (st.2.2 = none ∧ st.2.1 = 0 ∧ pre = []) ∨
      (∃ b, st.2.2 = some b ∧ b ∈ pre ∧
        st.2.1 = voteCount pre (keyTag b) ∧
        ∀ r ∈ pre, voteCount pre (keyTag r) ≤ st.2.1)) :
    ((combineStep st result).2.2 = none ∧ (combineStep st result).2.1 = 0 ∧
        pre ++ [result] = []) ∨
      (∃ b, (combineStep st result).2.2 = some b ∧ b ∈ pre ++ [result] ∧
        (combineStep st result).2.1 = voteCount (pre ++ [result]) (keyTag b) ∧
        ∀ r ∈ pre ++ [result],
          voteCount (pre ++ [result]) (keyTag r) ≤
            (combineStep st result).2.1) := by
  have hcnt := combineStep_count pre st result hhist
  by_cases hcond : st.2.1 <
      (st.1.lookup (result.rootNote ++ result.scale)).getD 0 + 1 ∨
    ((st.1.lookup (result.rootNote ++ result.scale)).getD 0 + 1 = st.2.1 ∧
      JsNum.gt result.correlation (corrOrZero st.2.2) = true)
  · rw [combineStep_eq_pos st result hcond]
    have hle : st.2.1 ≤
        (st.1.lookup (result.rootNote ++ result.scale)).getD 0 + 1 := by
      rcases hcond with h | ⟨h, _⟩
      · omega
      · omega
    refine Or.inr ⟨result, rfl, by simp, hcnt, ?_⟩
    intro r hr
    show voteCount (pre ++ [result]) (keyTag r) ≤
      (st.1.lookup (result.rootNote ++ result.scale)).getD 0 + 1
    rcases List.mem_append.mp hr with hmem | hnew
    · rw [voteCount_append]
      by_cases htag : keyTag result = keyTag r
      · rw [if_pos htag, ← htag]
        have hh : (st.1.lookup (result.rootNote ++ result.scale)).getD 0 =
            voteCount pre (keyTag result) := hhist (keyTag result)
        omega
      · rw [if_neg htag, Nat.add_zero]
        rcases hbest with ⟨_, _, hpre⟩ | ⟨b, _, _, _, hmax⟩
        · rw [hpre] at hmem
          cases hmem
        · exact le_trans (hmax r hmem) hle
    · rw [List.mem_singleton] at hnew
      rw [hnew, ← hcnt]
  · rw [combineStep_eq_neg st result hcond]
    push_neg at hcond
    obtain ⟨hnotlt, _⟩ := hcond
    have hle : (st.1.lookup (result.rootNote ++ result.scale)).getD 0 + 1 ≤
        st.2.1 := by omega
    rcases hbest with ⟨hnone, h0, hpre⟩ | ⟨b, hsome, hmem, hbcnt, hmax⟩
    · omega
    · have hneq : keyTag result ≠ keyTag b := by
        intro heq
        rw [hhist, show result.rootNote ++ result.scale = keyTag result from rfl,
          heq, ← hbcnt] at hle
        omega
      have hh : (st.1.lookup (result.rootNote ++ result.scale)).getD 0 =
          voteCount pre (keyTag result) := hhist (keyTag result)
      refine Or.inr ⟨b, hsome, List.mem_append_left _ hmem, ?_, ?_⟩
      · show st.2.1 = _
        rw [voteCount_append, if_neg hneq, Nat.add_zero, hbcnt]
      · intro r hr
        show voteCount (pre ++ [result]) (keyTag r) ≤ st.2.1
        rcases List.mem_append.mp hr with hmem2 | hnew
        · rw [voteCount_append]
          by_cases htag : keyTag result = keyTag r
          · rw [if_pos htag, ← htag]
            omega
          · rw [if_neg htag, Nat.add_zero]
            exact hmax r hmem2
        · rw [List.mem_singleton] at hnew
          rw [hnew]
          rw [voteCount_append]
          have hif : (if keyTag result = keyTag result then 1 else 0) = 1 :=
            if_pos rfl
          rw [hif]
          omega

theorem combineFold_inv :
    ∀ (rem pre : List KeyResult)
      (st : List (String × ℕ) × ℕ × Option KeyResult),
      (∀ tag, (st.1.lookup tag).getD 0 = voteCount pre tag) →
      ((st.2.2 = none ∧ st.2.1 = 0 ∧ pre = []) ∨
        (∃ b, st.2.2 = some b ∧ b ∈ pre ∧
          st.2.1 = voteCount pre (keyTag b) ∧
          ∀ r ∈ pre, voteCount pre (keyTag r) ≤ st.2.1)) →
      (∀ tag, ((rem.foldl combineStep st).1.lookup tag).getD 0 =
          voteCount (pre ++ rem) tag) ∧
        (((rem.foldl combineStep st).2.2 = none ∧
            (rem.foldl combineStep st).2.1 = 0 ∧ pre ++ rem = []) ∨
          (∃ b, (rem.foldl combineStep st).2.2 = some b ∧ b ∈ pre ++ rem ∧
            (rem.foldl combineStep st).2.1 =
              voteCount (pre ++ rem) (keyTag b) ∧
            ∀ r ∈ pre ++ rem,
              voteCount (pre ++ rem) (keyTag r) ≤
                (rem.foldl combineStep st).2.1))
  | [], pre, st, hhist, hbest => by
      simpa using ⟨hhist, hbest⟩
  | result :: rest, pre, st, hhist, hbest => by
      rw [List.foldl_cons]
      have hrec := combineFold_inv rest (pre ++ [result]) (combineStep st result)
        (combineStep_hist result hhist) (combineStep_best result hhist hbest)
      simpa [List.append_assoc] using hrec

theorem combineKeyResults_spec (results : List KeyResult) (best : KeyResult)
    (h : combineKeyResults results = Except.ok best) :
    ∃ seg ∈ results,
      best = ⟨seg.root, seg.scale,
        JsNum.min2 (JsNum.add (JsNum.div (fin (voteCount results (keyTag seg)))
          (fin results.length)) seg.confidence) (fin 1),
        seg.correlation, seg.rootNote⟩ ∧
      ∀ r ∈ results,
        voteCount results (keyTag r) ≤ voteCount results (keyTag seg) := by
  simp only [combineKeyResults] at h
  have hinv := combineFold_inv results [] ([], 0, none)
    (fun tag => rfl) (Or.inl ⟨rfl, rfl, rfl⟩)
  simp only [List.nil_append] at hinv
  obtain ⟨_, hbest⟩ := hinv
  rcases hbest with ⟨hnone, _, _⟩ | ⟨b, hsome, hmem, hcnt, hmax⟩
  · rw [hnone] at h
    simp at h
  · rw [hsome] at h
    simp only at h
    injection h with h
    refine ⟨b, hmem, ?_, ?_⟩
    · rw [← h, hcnt]
    · rw [← hcnt]
      exact hmax

theorem detectKey_fields (M : MathOps) (chroma : List JsNum) :
    (detectKey M chroma).root ≤ 11 ∧
      ((detectKey M chroma).scale = "major" ∨
        (detectKey M chroma).scale = "minor") ∧
      (detectKey M chroma).confidence = JsNum.max2 (fin (3/10))
        (JsNum.min2 (fin 1) (detectKey M chroma).correlation) := by
  simp only [detectKey]
  have hfold := foldl_inv (P := fun (st : JsNum × ℕ × String) =>
      st.2.1 ≤ 11 ∧ (st.2.2 = "major" ∨ st.2.2 = "minor"))
    (l := List.range 12)
    (b := ((fin (-1) : JsNum), (0 : ℕ), "major"))
    (f := fun (st : JsNum × ℕ × String) root =>
      if JsNum.gt (correlateProfiles M chroma MINOR_PROFILE root)
          (if JsNum.gt (correlateProfiles M chroma MAJOR_PROFILE root)
              st.1 = true then
            ((correlateProfiles M chroma MAJOR_PROFILE root), root, "major")
          else st).1 = true then
        ((correlateProfiles M chroma MINOR_PROFILE root), root, "minor")
      else
        (if JsNum.gt (correlateProfiles M chroma MAJOR_PROFILE root)
            st.1 = true then
          ((correlateProfiles M chroma MAJOR_PROFILE root), root, "major")
        else st))
    ⟨by norm_num, Or.inl rfl⟩
    (fun st root hroot hst => by
      have h11 : root ≤ 11 := by
        have := List.mem_range.mp hroot
        omega
      dsimp only
      split
      · split
        · exact ⟨h11, Or.inr rfl⟩
        · exact ⟨h11, Or.inl rfl⟩
      · split
        · exact ⟨h11, Or.inr rfl⟩
        · exact hst)
  exact ⟨hfold.1, hfold.2, by trivial⟩

/-- C8: whenever `extractKey` returns a result, that result is one of the
per-segment `detectKey` estimates with its confidence replaced by
`min(maxCount/results.length + winner.confidence, 1)`, where `maxCount`
is the winner's vote count over the `(rootNote, scale)` tags and no
segment's tag outpolls it (the majority vote); every segment estimate has
root pitch class in `[0, 11]`, scale `major` or `minor`, and confidence
exactly `max(0.3, min(1, correlation))` — so the returned root and scale
are in range too. -/
theorem C8_key_majority_vote_and_ranges (M : MathOps) (sig : Signal)
    (best : KeyResult) (h : extractKey M sig = Except.ok best) :
    (∃ seg ∈ keySegmentResults M sig,
        best = ⟨seg.root, seg.scale,
          JsNum.min2 (JsNum.add (JsNum.div
            (fin (voteCount (keySegmentResults M sig) (keyTag seg)))
            (fin (keySegmentResults M sig).length)) seg.confidence) (fin 1),
          seg.correlation, seg.rootNote⟩ ∧
        ∀ r ∈ keySegmentResults M sig,
          voteCount (keySegmentResults M sig) (keyTag r) ≤
            voteCount (keySegmentResults M sig) (keyTag seg)) ∧
      best.root ≤ 11 ∧ (best.scale = "major" ∨ best.scale = "minor") ∧
      ∀ r ∈ keySegmentResults M sig,
        r.root ≤ 11 ∧ (r.scale = "major" ∨ r.scale = "minor") ∧
        r.confidence = JsNum.max2 (fin (3/10))
          (JsNum.min2 (fin 1) r.correlation) := by
  have hseg : ∀ r ∈ keySegmentResults M sig,
      r.root ≤ 11 ∧ (r.scale = "major" ∨ r.scale = "minor") ∧
      r.confidence = JsNum.max2 (fin (3/10))
        (JsNum.min2 (fin 1) r.correlation) := by
    intro r hr
    obtain ⟨segment, _, rfl⟩ := List.mem_map.mp hr
    exact detectKey_fields M _
  obtain ⟨seg, hmem, hbesteq, hmax⟩ :=
    combineKeyResults_spec (keySegmentResults M sig) best h
  refine ⟨⟨seg, hmem, hbesteq, hmax⟩, ?_, ?_, hseg⟩
  · rw [hbesteq]
    exact (hseg seg hmem).1
  · rw [hbesteq]
    exact (hseg seg hmem).2.1

/-- C8 witness: the theorem applied at `ratOps` and a one-sample signal
at rate 50, where `extractKey` returns the root-C major result with
confidence 1. -/
theorem C8_key_majority_vote_and_ranges_witness :
    (∃ seg ∈ keySegmentResults ratOps ⟨[0], 50⟩,
        (⟨0, "major", fin 1, fin (-1), "C"⟩ : KeyResult) =
          ⟨seg.root, seg.scale,
            JsNum.min2 (JsNum.add (JsNum.div
              (fin (voteCount (keySegmentResults ratOps ⟨[0], 50⟩)
                (keyTag seg)))
              (fin (keySegmentResults ratOps ⟨[0], 50⟩).length))
              seg.confidence) (fin 1),
            seg.correlation, seg.rootNote⟩ ∧
        ∀ r ∈ keySegmentResults ratOps ⟨[0], 50⟩,
          voteCount (keySegmentResults ratOps ⟨[0], 50⟩) (keyTag r) ≤
            voteCount (keySegmentResults ratOps ⟨[0], 50⟩) (keyTag seg)) ∧
      (⟨0, "major", fin 1, fin (-1), "C"⟩ : KeyResult).root ≤ 11 ∧
      ((⟨0, "major", fin 1, fin (-1), "C"⟩ : KeyResult).scale = "major" ∨
        (⟨0, "major", fin 1, fin (-1), "C"⟩ : KeyResult).scale = "minor") ∧
      ∀ r ∈ keySegmentResults ratOps ⟨[0], 50⟩,
        r.root ≤ 11 ∧ (r.scale = "major" ∨ r.scale = "minor") ∧
        r.confidence = JsNum.max2 (fin (3/10))
          (JsNum.min2 (fin 1) r.correlation) :=
  C8_key_majority_vote_and_ranges ratOps ⟨[0], 50⟩
    ⟨0, "major", fin 1, fin (-1), "C"⟩ (by decide!)

/-! ### Claim C9 — the key detector on signals shorter than 10 seconds -/

theorem extractKeySegments_single (sig : Signal) (h1 : 1 ≤ sig.samples.length)
    (h2 : sig.samples.length < 10 * sig.sampleRate) :
    extractKeySegments sig = [[]] := by
  simp only [extractKeySegments, List.length_map]
  have hseg1 : 1 ≤ min (sig.sampleRate * 5) sig.samples.length := by omega
  have hsegle : min (sig.sampleRate * 5) sig.samples.length ≤
      sig.samples.length := by omega
  have hlt : sig.samples.length <
      2 * min (sig.sampleRate * 5) sig.samples.length := by omega
  have hsegQ : (0 : ℚ) < (min (sig.sampleRate * 5) sig.samples.length : ℕ) :=
    by exact_mod_cast hseg1
  have hdiv : JsNum.div (fin (sig.samples.length : ℚ))
      (fin ((min (sig.sampleRate * 5) sig.samples.length : ℕ) : ℚ)) =
      fin ((sig.samples.length : ℚ) /
        ((min (sig.sampleRate * 5) sig.samples.length : ℕ) : ℚ)) := by
    simp only [JsNum.div]
    rw [if_neg (ne_of_gt hsegQ)]
  have hle' : ((min (sig.sampleRate * 5) sig.samples.length : ℕ) : ℚ) ≤
      (sig.samples.length : ℚ) := by exact_mod_cast hsegle
  have hlt' : (sig.samples.length : ℚ) <
      2 * ((min (sig.sampleRate * 5) sig.samples.length : ℕ) : ℚ) := by
    exact_mod_cast hlt
  have hfloor : ⌊(sig.samples.length : ℚ) /
      ((min (sig.sampleRate * 5) sig.samples.length : ℕ) : ℚ)⌋ = 1 := by
    rw [Int.floor_eq_iff]
    constructor
    · rw [show (((1 : ℤ) : ℚ)) = 1 by norm_num, le_div_iff₀ hsegQ, one_mul]
      exact hle'
    · rw [div_lt_iff₀ hsegQ]
      push_cast at hlt' ⊢
      linarith
  have hns : JsNum.min2 (fin 5) (JsNum.floor (JsNum.div
      (fin (sig.samples.length : ℚ))
      (fin ((min (sig.sampleRate * 5) sig.samples.length : ℕ) : ℚ)))) =
      fin 1 := by
    rw [hdiv]
    show JsNum.min2 (fin 5) (fin ((⌊(sig.samples.length : ℚ) /
      ((min (sig.sampleRate * 5) sig.samples.length : ℕ) : ℚ)⌋ : ℤ) : ℚ)) =
      fin 1
    rw [hfloor]
    norm_num [JsNum.min2, JsNum.lt]
  rw [hns]
  rw [show jsLoopIters (fin 1) = 1 by norm_num [jsLoopIters]]
  rw [show List.range 1 = [0] from rfl]
  simp only [List.map_cons, List.map_nil]
  norm_num [jsSlice, sliceBound, JsNum.sub, JsNum.div, JsNum.mul,
    JsNum.floor, JsNum.add]

theorem calculateChromagram_nil (M : MathOps) (rate : ℕ) :
    calculateChromagram M [] rate = List.replicate 12 (fin 0) := rfl

theorem correlateProfiles_zero_chroma (M : MathOps) (hM : M.Lawful)
    (profile : List ℚ) (root : ℕ) :
    correlateProfiles M (List.replicate 12 (fin 0)) profile root = nan := by
  simp only [correlateProfiles]
  have hfold := foldl_inv (P := fun (st : JsNum × JsNum × JsNum) =>
      ∃ y : ℚ, st.1 = fin 0 ∧ st.2.1 = fin y ∧ st.2.2 = fin 0)
    (l := List.range 12) (b := ((fin 0 : JsNum), (fin 0 : JsNum), (fin 0 : JsNum)))
    (f := fun (st : JsNum × JsNum × JsNum) i =>
      (JsNum.add st.1 (JsNum.mul ((List.replicate 12 (fin 0)).getD i nan)
          (fin (profile.getD ((i + 12 - root) % 12) 0))),
        JsNum.add st.2.1 (JsNum.mul (fin (profile.getD ((i + 12 - root) % 12) 0))
          (fin (profile.getD ((i + 12 - root) % 12) 0))),
        JsNum.add st.2.2 (JsNum.mul ((List.replicate 12 (fin 0)).getD i nan)
          ((List.replicate 12 (fin 0)).getD i nan))))
    ⟨0, rfl, rfl, rfl⟩
    (fun st i hi hst => by
      obtain ⟨y, ha, hb, hc⟩ := hst
      have hi12 : i < 12 := List.mem_range.mp hi
      have hcv : (List.replicate 12 ((fin 0) : JsNum)).getD i nan = fin 0 := by
        rw [List.getD_eq_getElem _ _ (by simpa using hi12)]
        rw [List.getElem_replicate]
      refine ⟨y + (profile.getD ((i + 12 - root) % 12) 0) *
        (profile.getD ((i + 12 - root) % 12) 0), ?_, ?_, ?_⟩
      · show JsNum.add st.1 _ = fin 0
        rw [ha, hcv]
        norm_num [JsNum.add, JsNum.mul]
      · show JsNum.add st.2.1 _ = _
        rw [hb]
        norm_num [JsNum.add, JsNum.mul]
      · show JsNum.add st.2.2 _ = fin 0
        rw [hc, hcv]
        norm_num [JsNum.add, JsNum.mul])
  obtain ⟨y, h1, h2, h3⟩ := hfold
  rw [h1, h2, h3]
  rw [show JsNum.mul (fin y) (fin 0) = fin 0 by norm_num [JsNum.mul]]
  rw [hM.sqrt_zero]
  norm_num [JsNum.div]

theorem detectKey_zero_chroma (M : MathOps) (hM : M.Lawful) :
    detectKey M (List.replicate 12 (fin 0)) =
      ⟨0, "major", fin (3/10), fin (-1), "C"⟩ := by
  simp only [detectKey]
  have hfold : (List.range 12).foldl
      (fun (st : JsNum × ℕ × String) root =>
        if JsNum.gt (correlateProfiles M (List.replicate 12 (fin 0))
            MINOR_PROFILE root)
          (if JsNum.gt (correlateProfiles M (List.replicate 12 (fin 0))
              MAJOR_PROFILE root) st.1 = true then
            ((correlateProfiles M (List.replicate 12 (fin 0))
              MAJOR_PROFILE root), root, "major")
          else st).1 = true then
          ((correlateProfiles M (List.replicate 12 (fin 0))
            MINOR_PROFILE root), root, "minor")
        else
          (if JsNum.gt (correlateProfiles M (List.replicate 12 (fin 0))
              MAJOR_PROFILE root) st.1 = true then
            ((correlateProfiles M (List.replicate 12 (fin 0))
              MAJOR_PROFILE root), root, "major")
          else st))
      ((fin (-1) : JsNum), (0 : ℕ), "major") = (fin (-1), 0, "major") := by
    refine foldl_const (fun root _ => ?_)
    rw [correlateProfiles_zero_chroma M hM MAJOR_PROFILE root,
      correlateProfiles_zero_chroma M hM MINOR_PROFILE root]
    norm_num [JsNum.gt, JsNum.lt]
  rw [hfold]
  norm_num [JsNum.max2, JsNum.min2, JsNum.lt, NOTE_NAMES]

/-- C9: for every lawful `Math` interpretation and every nonempty signal
shorter than ten seconds (`1 ≤ length < 10·sampleRate`, so
`numSegments = 1`), the single segment's start index is computed through
`0/0 = NaN`, `slice` coerces it to an empty segment, its chromagram is
all zeros, every profile correlation is `NaN` (`0 / sqrt(·…·0) = 0/0`),
and `extractKey` returns root pitch class 0 (note `C`), scale `major`,
correlation `-1` and combined confidence exactly 1 — whatever the
samples contain. -/
theorem C9_short_signal_key (M : MathOps) (hM : M.Lawful) (sig : Signal)
    (h1 : 1 ≤ sig.samples.length)
    (h2 : sig.samples.length < 10 * sig.sampleRate) :
    extractKey M sig = Except.ok ⟨0, "major", fin 1, fin (-1), "C"⟩ := by
  unfold extractKey keySegmentResults
  rw [extractKeySegments_single sig h1 h2]
  simp only [List.map_cons, List.map_nil]
  rw [calculateChromagram_nil, detectKey_zero_chroma M hM]
  decide!

/-- C9 witness: the theorem applied to `ratOps` and a one-sample signal
with a nonzero sample at rate 100. -/
theorem C9_short_signal_key_witness :
    extractKey ratOps ⟨[1/2], 100⟩ =
      Except.ok ⟨0, "major", fin 1, fin (-1), "C"⟩ :=
  C9_short_signal_key ratOps ratOps_lawful ⟨[1/2], 100⟩ (by norm_num)
    (by norm_num)

/-! ### Claim C10 — the mood classifier's emotional dimensions -/

/-- C10 counterexample: the claim says `classifyMoodML` returns the
arousal/valence/dominance formulas for every input, but at this input —
tempo 100, rms 1/4, all timbre features 1/2, a major key with confidence
1/2 — `detectGenre` yields `"other"`, `GENRE_COLOR_MAPPINGS` has no
`other` entry, and `genreColors.primary` raises a `TypeError`, so nothing
is returned at all. -/
theorem C10_mood_formula_counterexample :
    classifyMoodML 100 (1/4) ⟨1/2, 1/2, 1/2, 1/2⟩ ⟨"major", 1/2⟩ =
      Except.error JsErr.typeError := by
  decide!

/-- C10 (amended): whenever `classifyMoodML` does return a result — that
is, whenever `detectGenre` lands on a genre with a color table entry —
the emotional dimensions satisfy the claimed formulas:
`arousal = 0.3·tempo' + 0.3·loudness + 0.2·brightness + 0.2·roughness`,
`valence = (1 − 0.3·isMinor) · (0.3·warmth + 0.2·(1−roughness) +
0.2·keyConfidence + 0.3·(1−complexity))`, and
`dominance = 0.4·loudness + 0.3·complexity + 0.3·roughness`, with
`tempo' = (tempo−40)/(200−40)` and `loudness = min(1, rms·2)`. -/
theorem C10_mood_formulas (tempo rms : ℚ) (timbre : TimbreIn) (key : KeyIn)
    (r : MoodMLResult) (h : classifyMoodML tempo rms timbre key = Except.ok r) :
    r.arousal = (3/10) * ((tempo - 40) / (200 - 40)) + (3/10) * min 1 (rms * 2) +
        (2/10) * timbre.brightness + (2/10) * timbre.roughness ∧
      r.valence = (1 - (3/10) * (if key.scale = "minor" then 1 else 0)) *
        ((3/10) * timbre.warmth + (2/10) * (1 - timbre.roughness) +
          (2/10) * key.confidence + (3/10) * (1 - timbre.complexity)) ∧
      r.dominance = (4/10) * min 1 (rms * 2) + (3/10) * timbre.complexity +
        (3/10) * timbre.roughness := by
  unfold classifyMoodML at h
  obtain ⟨cc, _, h⟩ := except_bind_ok h
  injection h with h
  subst h
  refine ⟨?_, ?_, ?_⟩
  · show calculateArousal _ = _
    unfold calculateArousal
    show (tempo - 40) / (200 - 40) * (3/10) + min (rms * 2) 1 * (3/10) +
      timbre.brightness * (2/10) + timbre.roughness * (2/10) = _
    rw [min_comm]
    ring
  · show calculateValence _ = _
    unfold calculateValence
    ring
  · show calculateDominance _ = _
    unfold calculateDominance
    show min (rms * 2) 1 * (4/10) + timbre.complexity * (3/10) +
      timbre.roughness * (3/10) = _
    rw [min_comm]
    ring

/-- C10 witness: the amended theorem applied at a concrete input that is
classified `electronic` (tempo 130, brightness 0.8). -/
theorem C10_mood_formulas_witness :
    ((463/800 : ℚ) = (3/10) * (((130 : ℚ) - 40) / (200 - 40)) +
        (3/10) * min 1 ((1/4 : ℚ) * 2) + (2/10) * (8/10 : ℚ) + (2/10) * (1/2 : ℚ)) ∧
      ((1/2 : ℚ) = (1 - (3/10) * (if ("major" : String) = "minor" then 1 else 0)) *
        ((3/10) * (1/2 : ℚ) + (2/10) * (1 - (1/2 : ℚ)) + (2/10) * (1/2 : ℚ) +
          (3/10) * (1 - (1/2 : ℚ)))) ∧
      ((1/2 : ℚ) = (4/10) * min 1 ((1/4 : ℚ) * 2) + (3/10) * (1/2 : ℚ) +
        (3/10) * (1/2 : ℚ)) := by
  exact C10_mood_formulas 130 (1/4) ⟨1/2, 8/10, 1/2, 1/2⟩ ⟨"major", 1/2⟩
    { emotional := "neutral", genre := "electronic", arousal := 463/800,
      valence := 1/2, dominance := 1/2,
      culturalColors :=
        ⟨⟨⟨180, 100, 50⟩, ⟨300, 100, 50⟩,
            "Represents technological advancement and futurism"⟩,
          ⟨180, 40, 80⟩, ⟨150, 40, 40⟩, ⟨180, 70, 65⟩⟩ }
    (by decide!)

end MusicToColor
